import Mathlib

/-!
Verification of the datadex catalog engine (`datadex/datadex.py`).

The development shallowly embeds the parts of the program the claims
touch:

* query strings are lists of characters (`Str`); the builder functions
  (`sql_escape`, the condition builder of `DataDex.lookup`, the INSERT
  builder of `DataDex.add`, the DELETE builder of `DataDex.prune`)
  are translated statement by statement from the source;
* the external SQLite engine (out of scope of the repository, used as a
  black box) is modelled on exactly the query fragment the program
  emits: a tokenizer for double-quoted identifier/string tokens with
  doubled-quote escapes, decimal integer literals and bare identifiers,
  `IS` / `=` comparisons joined by `AND`, together with SQLite's
  double-quote misfeature — a double-quoted token is resolved as a
  column name first and only falls back to a string literal when no
  column matches;
* the filesystem is a value: a list of existing paths for `prune`, a
  per-directory record for `add_dir`, a tree of files for
  `hash_directory`.

Integers are modelled exactly (the program passes Python ints through
`repr`); SHA-256 is modelled by the stream of bytes fed to the hasher,
so two digests are equal in the model exactly when the update streams
coincide.
-/

namespace Datadex

/-- Query strings, paths and field names are lists of characters. -/
abbrev Str := List Char

/-- ASCII decimal digit, by code point (the SQL lexer's digit class). -/
def isDigitB (c : Char) : Bool := 48 ≤ c.toNat && c.toNat ≤ 57

/-- ASCII identifier character: letter, digit or underscore (the SQL
lexer's identifier class, adequate for the plain column names the
catalog creates). -/
def isIdentChar (c : Char) : Bool :=
  (65 ≤ c.toNat && c.toNat ≤ 90) || (97 ≤ c.toNat && c.toNat ≤ 122) ||
  (48 ≤ c.toNat && c.toNat ≤ 57) || c.toNat == 95

/-- ASCII upper-casing of one character, as Python's `str.upper` acts on
the ASCII identifiers that reach it here. -/
def upChar (c : Char) : Char :=
  if 97 ≤ c.toNat && c.toNat ≤ 122 then Char.ofNat (c.toNat - 32) else c

/-- ASCII lower-casing of one character, as Python's `str.lower` acts on
the ASCII names that reach it here. -/
def downChar (c : Char) : Char :=
  if 65 ≤ c.toNat && c.toNat ≤ 90 then Char.ofNat (c.toNat + 32) else c

/-- Python `s.upper()` on an ASCII string. -/
def asciiUpper (s : Str) : Str := s.map upChar

/-- Python `s.lower()` on an ASCII string. -/
def asciiLower (s : Str) : Str := s.map downChar

/-- Translation of `sql_escape` (datadex.py lines 34-38): Python
`old.replace with a one-character pattern` rewrites every occurrence of
a double quote to two double quotes, which on characters is exactly
this flat map. -/
def sql_escape (s : Str) : Str :=
  s.flatMap (fun c => if c = '"' then ['"', '"'] else [c])

/-! Fixed text fragments of the emitted queries, named so that proofs
treat them as units. Each equals the corresponding Python literal. -/

/-- The text between a field name and its compared literal. -/
def isLit : Str := [' ', 'I', 'S', ' ']

/-- The text of the `=` comparison `prune` emits. -/
def eqLit : Str := [' ', '=', ' ']

/-- The conjunction text `select` joins conditions with. -/
def andLit : Str := [' ', 'A', 'N', 'D', ' ']

/-- The separator of INSERT field and value lists. -/
def commaLit : Str := [',', ' ']

/-- The `NULL` keyword. -/
def nullLit : Str := ['N', 'U', 'L', 'L']

/-- The upper-cased `filename` column reference. -/
def fnameUpperLit : Str := ['F', 'I', 'L', 'E', 'N', 'A', 'M', 'E']

/-- The lower-cased `filename` column name. -/
def fnameLowerLit : Str := ['f', 'i', 'l', 'e', 'n', 'a', 'm', 'e']

/-- A scalar metadata value as the program handles it: a Python `str`,
`int` or `None` (floats and booleans are outside the modelled claims). -/
inductive Value where
  | vstr : Str → Value
  | vint : Int → Value
  | vnull : Value
deriving DecidableEq, Repr

/-- An entry: the ordered field-to-value mapping parsed from a marker
file (Python dict in insertion order). -/
abbrev Entry := List (Str × Value)

/-- Decimal rendering of a natural number, as Python `repr`/`str` (the
same digit sequence core's `Nat.repr` produces). -/
def natRepr (n : Nat) : Str := Nat.toDigits 10 n

/-- Decimal rendering of an integer, as Python `repr`/`str`. -/
def intRepr (n : Int) : Str :=
  if n < 0 then '-' :: natRepr n.natAbs else natRepr n.toNat

/-- The literal text the program interpolates for a value: strings are
escaped and wrapped in double quotes (`add`, and the string branch of
`lookup`); other values are rendered by Python `repr`/`str`, so `None`
becomes the bare text `None`. -/
def renderLit : Value → Str
  | .vstr s => '"' :: (sql_escape s ++ ['"'])
  | .vint n => intRepr n
  | .vnull => ['N', 'o', 'n', 'e']

/-! ## The engine's lexer for the emitted fragment -/

mutual

/-- Scan the remainder of a double-quoted token (opening quote already
consumed): an ordinary character is accumulated; a quote hands over to
the closing scan. -/
def scanQuoted : Str → Option (Str × Str)
  | [] => none
  | c :: rest =>
    if c = '"' then scanQuotedClose rest
    else (scanQuoted rest).map (fun p => (c :: p.1, p.2))

/-- After a quote inside a quoted token: a second quote is an escaped
quote character and scanning continues, anything else ends the token. -/
def scanQuotedClose : Str → Option (Str × Str)
  | [] => some ([], [])
  | c2 :: rest' =>
    if c2 = '"' then (scanQuoted rest').map (fun p => ('"' :: p.1, p.2))
    else some ([], c2 :: rest')

end

/-- The numeric value of a run of decimal digit characters. -/
def digitsVal (ds : Str) : Nat := ds.foldl (fun a c => 10 * a + (c.toNat - 48)) 0

/-- Scan a run of decimal digits (maximal munch) and its value. -/
def scanNat (s : Str) : Option (Nat × Str) :=
  let ds := s.takeWhile isDigitB
  if ds = [] then none
  else some (digitsVal ds, s.dropWhile isDigitB)

/-- A token of the emitted query fragment: a double-quoted token (still
to be resolved as column or string), an integer literal, or a bare
identifier (possibly a keyword such as `NULL`). -/
inductive Tok where
  | tquoted : Str → Tok
  | tint : Int → Tok
  | tbare : Str → Tok
deriving DecidableEq, Repr

/-- Scan one token. -/
def scanTok : Str → Option (Tok × Str)
  | [] => none
  | c :: rest =>
    if c = '"' then (scanQuoted rest).map (fun p => (.tquoted p.1, p.2))
    else if c = '-' then (scanNat rest).map (fun p => (.tint (-(p.1 : Int)), p.2))
    else if isDigitB c then (scanNat (c :: rest)).map (fun p => (.tint (p.1 : Int), p.2))
    else if isIdentChar c then
      some (.tbare ((c :: rest).takeWhile isIdentChar), (c :: rest).dropWhile isIdentChar)
    else none

/-- Drop an expected literal piece of text; `none` when absent. -/
def dropLit (pat s : Str) : Option Str :=
  if pat.isPrefixOf s then some (s.drop pat.length) else none

/-- One comparison of the emitted fragment: `NAME IS tok` (from
`lookup`) or `NAME = tok` (from `prune`). -/
structure Cond where
  lhs : Str
  isIs : Bool
  rhs : Tok
deriving DecidableEq, Repr

/-- Scan one comparison: an identifier, the operator, one token. -/
def scanCond (s : Str) : Option (Cond × Str) :=
  let i := s.takeWhile isIdentChar
  let r := s.dropWhile isIdentChar
  if i = [] then none
  else
    match dropLit isLit r with
    | some r' => (scanTok r').map (fun p => (⟨i, true, p.1⟩, p.2))
    | none =>
      match dropLit eqLit r with
      | some r' => (scanTok r').map (fun p => (⟨i, false, p.1⟩, p.2))
      | none => none

/-- Scan a whole WHERE clause: comparisons joined by the exact text
`" AND "` (the joins the program emits), with fuel for termination.
Trailing garbage is a syntax error. -/
def scanConds : Nat → Str → Option (List Cond)
  | 0, _ => none
  | fuel + 1, s =>
    (scanCond s).bind (fun p =>
      if p.2 = [] then some [p.1]
      else (dropLit andLit p.2).bind
        (fun r => (scanConds fuel r).map (fun cs => p.1 :: cs)))

/-- Join strings with a separator, as Python `sep.join`. -/
def joinSep (sep : Str) : List Str → Str
  | [] => []
  | [x] => x
  | x :: xs => x ++ sep ++ joinSep sep xs

/-! ## The table, name resolution and evaluation -/

/-- A stored row: one optional value per column (`none` is SQL NULL). -/
abbrev Row := List (Option Value)

/-- The LIBRARY table: its declared column names (as `cursor.description`
reports them) and its rows. -/
structure DB where
  headers : List Str
  rows : List Row
deriving DecidableEq, Repr

/-- The Python exceptions the modelled code can raise, by kind:
`sqlite3.OperationalError`, `RuntimeError`, `ValueError`, `NameError`,
`IndexError`, `TypeError`. -/
inductive Err where
  | operationalErr | runtimeErr | valueErr | nameErr | indexErr | typeErr
deriving DecidableEq, Repr

/-- Resolve a name against the table's columns, case-insensitively as
SQLite matches identifiers (first match, as for its unique columns). -/
def colIdx? : List Str → Str → Option Nat
  | [], _ => none
  | h :: t, name =>
    if asciiUpper h = asciiUpper name then some 0
    else (colIdx? t name).map (fun i => i + 1)

/-- A resolved operand: a constant, or a reference to column `i`. -/
inductive RVal where
  | lit : Option Value → RVal
  | col : Nat → RVal
deriving DecidableEq, Repr

/-- A resolved comparison. -/
structure RCond where
  idx : Nat
  isIs : Bool
  rhs : RVal
deriving DecidableEq, Repr

/-- Resolve a token in expression position inside a WHERE clause.
SQLite's double-quote misfeature: a double-quoted token is an
identifier when some column matches, and only otherwise a string
literal. A bare token is the `NULL` keyword, a column, or an unknown
name (`sqlite3.OperationalError: no such column`). -/
def resolveCondTok (hs : List Str) : Tok → Except Err RVal
  | .tquoted s =>
    match colIdx? hs s with
    | some i => .ok (.col i)
    | none => .ok (.lit (some (.vstr s)))
  | .tint n => .ok (.lit (some (.vint n)))
  | .tbare s =>
    if asciiUpper s = nullLit then .ok (.lit none)
    else
      match colIdx? hs s with
      | some i => .ok (.col i)
      | none => .error .operationalErr

/-- Resolve one comparison: the left side must be a column. -/
def resolveCond (hs : List Str) (c : Cond) : Except Err RCond :=
  match colIdx? hs c.lhs with
  | none => .error .operationalErr
  | some i => (resolveCondTok hs c.rhs).map (fun r => ⟨i, c.isIs, r⟩)

/-- The value of column `i` in a row (NULL when out of range). -/
def rowGet (r : Row) (i : Nat) : Option Value := (r.get? i).join

/-- The value of a resolved operand in a row. -/
def evalRVal (r : Row) : RVal → Option Value
  | .lit v => v
  | .col i => rowGet r i

/-- Truth of a resolved comparison in a row: `IS` is null-safe equality
on storage classes and values; `=` is never true against NULL. -/
def evalRCond (r : Row) (c : RCond) : Bool :=
  let lhs := rowGet r c.idx
  let rhs := evalRVal r c.rhs
  if c.isIs then decide (lhs = rhs)
  else
    match lhs, rhs with
    | some a, some b => decide (a = b)
    | _, _ => false

/-- The WHERE clause `select` builds from a condition list: absent when
the list is empty, otherwise the fragments joined with `AND`
(datadex.py lines 210-215, list branch). -/
def whereJoin (conds : List Str) : Option Str :=
  if conds = [] then none else some (joinSep andLit conds)

/-- Run `SELECT * FROM LIBRARY` with the given condition fragments:
no clause returns every row; otherwise the engine scans the clause,
resolves every comparison, and filters. -/
def runWhere (db : DB) (conds : List Str) : Except Err (List Row) :=
  match whereJoin conds with
  | none => .ok db.rows
  | some w =>
    match scanConds (w.length + 1) w with
    | none => .error .operationalErr
    | some cs =>
      (cs.mapM (resolveCond db.headers)).map
        (fun rcs => db.rows.filter (fun r => rcs.all (evalRCond r)))

/-! ## The query builders of `lookup`, `add` and the engine's INSERT -/

/-- The comparison text `lookup` emits for one present field
(datadex.py lines 239-243): the field name upper-cased, `IS`, and the
interpolated literal. -/
def condText (f : Str) (v : Value) : Str :=
  asciiUpper f ++ isLit ++ renderLit v

/-- The condition fragments `lookup` builds (datadex.py lines 234-249):
one comparison per entry field (skipping `filename` when ignored), then
under `enforce_null` an `IS NULL` comparison for every schema column
absent from the entry (by exact key, Python `field not in entry`). -/
def lookupConds (hs : List Str) (entry : Entry) (ignoreF enforceN : Bool) : List Str :=
  (entry.filterMap fun p =>
    if ignoreF ∧ asciiLower p.1 = fnameLowerLit then none
    else some (condText p.1 p.2)) ++
  (if enforceN then
    hs.filterMap fun h =>
      if asciiLower h = fnameLowerLit ∧ ignoreF then none
      else if entry.any (fun p => decide (p.1 = h)) then none
      else some (asciiUpper h ++ isLit ++ nullLit)
  else [])

/-- Translation of `DataDex.lookup` (datadex.py lines 230-250). -/
def lookupOp (db : DB) (entry : Entry) (ignoreF enforceN : Bool) : Except Err (List Row) :=
  runWhere db (lookupConds db.headers entry ignoreF enforceN)

/-- Scan the column-name list of an INSERT, `", "`-separated. -/
def scanIdentList : Nat → Str → Option (List Str)
  | 0, _ => none
  | fuel + 1, s =>
    let i := s.takeWhile isIdentChar
    let r := s.dropWhile isIdentChar
    if i = [] then none
    else if r = [] then some [i]
    else (dropLit commaLit r).bind
      (fun r' => (scanIdentList fuel r').map (fun xs => i :: xs))

/-- Scan the VALUES list of an INSERT, `", "`-separated. -/
def scanTokList : Nat → Str → Option (List Tok)
  | 0, _ => none
  | fuel + 1, s =>
    (scanTok s).bind (fun p =>
      if p.2 = [] then some [p.1]
      else (dropLit commaLit p.2).bind
        (fun r => (scanTokList fuel r).map (fun ts => p.1 :: ts)))

/-- Resolve a token in VALUES position: no columns are in scope there,
so a double-quoted token is always a string literal; a bare token other
than `NULL` is an unknown name. -/
def resolveValTok : Tok → Except Err (Option Value)
  | .tquoted s => .ok (some (.vstr s))
  | .tint n => .ok (some (.vint n))
  | .tbare s =>
    if asciiUpper s = nullLit then .ok none else .error .operationalErr

/-- Run `INSERT INTO LIBRARY (fields) VALUES (vals)` on the two emitted
argument texts: scan both lists, resolve every field to a column
(duplicates and arity mismatch are errors), resolve every value, and
append the row, unmentioned columns NULL. -/
def insertOp (db : DB) (fieldsStr valsStr : Str) : Except Err DB :=
  match scanIdentList (fieldsStr.length + 1) fieldsStr,
        scanTokList (valsStr.length + 1) valsStr with
  | some fs, some ts =>
    if fs.length ≠ ts.length then .error .operationalErr
    else do
      let idxs ← fs.mapM (fun f =>
        match colIdx? db.headers f with
        | some i => Except.ok i
        | none => Except.error Err.operationalErr)
      if idxs.Nodup then
        let vals ← ts.mapM resolveValTok
        Except.ok { db with
          rows := db.rows ++ [(List.range db.headers.length).map
            (fun i => ((idxs.zip vals).find? (fun p => p.1 == i)).bind (fun p => p.2))] }
      else Except.error Err.operationalErr
  | _, _ => .error .operationalErr

/-- Translation of `DataDex.add` (datadex.py lines 252-268): insert the
entry when `lookup` (ignoring filename, enforcing NULL) finds nothing,
reporting whether an insert happened; the field list is the upper-cased
keys and the VALUES list the interpolated literals, both joined with
`", "`. Exceptions propagate with the table as it stood. -/
def addOp (db : DB) (entry : Entry) : DB × Except Err Bool :=
  match lookupOp db entry true true with
  | .error e => (db, .error e)
  | .ok rows =>
    if rows.length = 0 then
      match insertOp db (joinSep commaLit (entry.map (fun p => asciiUpper p.1)))
          (joinSep commaLit (entry.map (fun p => renderLit p.2))) with
      | .error e => (db, .error e)
      | .ok db' => (db', .ok true)
    else (db, .ok false)

/-- The row an entry should become: for each column, the value of the
case-insensitively matching entry field, NULL when there is none. -/
def entryRow (hs : List Str) (entry : Entry) : Row :=
  hs.map (fun h =>
    (entry.find? (fun p => asciiUpper p.1 == asciiUpper h)).map (fun p => p.2))

example : sql_escape ("5\" pipe".data) = ("5\"\" pipe".data) := by decide
example : scanQuoted ("5\"\" pipe\" AND ".data) = some (("5\" pipe".data), (" AND ".data)) := by
  decide
example : natRepr 310 = ['3', '1', '0'] := by decide
example : intRepr (-31) = ['-', '3', '1'] := by decide
example : scanTok ("-31 X".data) = some (.tint (-31), (" X".data)) := by decide
example : scanCond ("A IS \"b\" AND B IS NULL".data) =
    some (⟨['A'], true, .tquoted ['b']⟩, (" AND B IS NULL".data)) := by decide
example : scanConds 3 ("A IS \"b\" AND B IS NULL".data) =
    some [⟨['A'], true, .tquoted ['b']⟩, ⟨['B'], true, .tbare ("NULL".data)⟩] := by decide

deriving instance DecidableEq for Except

/-! ## `search`, `prune` -/

/-- Split a string at every slash. -/
def splitSlash (s : Str) : List Str :=
  s.foldr
    (fun c acc =>
      if c = '/' then [] :: acc
      else
        match acc with
        | [] => [[c]]
        | a :: rest => (c :: a) :: rest)
    [[]]

/-- Model of `os.path.normpath` (Python standard library, an external
collaborator) on the inputs the program feeds it: relative POSIX paths
without `..` segments. Empty and `.` components vanish; an empty result
is the path `.`. -/
def normpath (s : Str) : Str :=
  let comps := (splitSlash s).filter (fun c => !(c == [] || c == ['.']))
  if comps = [] then ['.'] else joinSep ['/'] comps

/-- Translation of `DataDex.search` with no conditions (datadex.py
lines 220-228): `SELECT FILENAME FROM LIBRARY`, each result normalized
by `path.normpath` — which raises `TypeError` on a non-string, as
Python does on a NULL or numeric filename. -/
def searchOp (db : DB) : Except Err (List Str) :=
  match colIdx? db.headers fnameUpperLit with
  | none => .error .operationalErr
  | some i =>
    db.rows.mapM (fun r =>
      match rowGet r i with
      | some (.vstr s) => Except.ok (normpath s)
      | _ => Except.error Err.typeErr)

/-- Run `DELETE FROM LIBRARY WHERE w`: scan and resolve the clause,
drop every matching row. -/
def deleteOp (db : DB) (w : Str) : Except Err DB :=
  match scanConds (w.length + 1) w with
  | none => .error .operationalErr
  | some cs =>
    (cs.mapM (resolveCond db.headers)).map
      (fun rcs => { db with rows := db.rows.filter (fun r => !(rcs.all (evalRCond r))) })

/-- The loop body of `prune` over the captured `search()` result: a
dataset whose path exists is kept; otherwise the program emits
`DELETE FROM LIBRARY WHERE FILENAME = "<dataset>"` with the dataset
interpolated raw (no `sql_escape`), and remembers that it pruned. -/
def pruneLoop (fs : List Str) : List Str → DB → Bool → DB × Except Err Bool
  | [], db, flag => (db, .ok flag)
  | d :: rest, db, flag =>
    if fs.contains d then pruneLoop fs rest db flag
    else
      match deleteOp db (fnameUpperLit ++ eqLit ++ ('"' :: (d ++ ['"']))) with
      | .error e => (db, .error e)
      | .ok db' => pruneLoop fs rest db' true

/-- Translation of `DataDex.prune` (datadex.py lines 330-342), against
a filesystem given as the list of existing paths. -/
def pruneOp (fs : List Str) (db : DB) : DB × Except Err Bool :=
  match searchOp db with
  | .error e => (db, .error e)
  | .ok ds => pruneLoop fs ds db false

/-- The stored-filename shape `prune`'s specification needs of a row:
the FILENAME column holds a string that is its own `normpath`, has no
embedded quote, and does not spell a column name. -/
def rowFilenameOk (hs : List Str) (i : Nat) (r : Row) : Bool :=
  match rowGet r i with
  | some (.vstr s) =>
    (normpath s == s) && s.all (fun c => !(c == '"')) && (colIdx? hs s).isNone
  | _ => false

/-! ## `add_dir` -/

/-- What the filesystem says about one directory argument: whether the
path exists, is a directory, has a `params.json` regular file, and what
that file parses to (parsing is the external JSON collaborator). -/
structure DirInfo where
  present : Bool
  isdir : Bool
  hasParams : Bool
  params : Entry

/-- Python `d[k] = v` on the ordered dict: overwrite in place when the
key exists, else append. -/
def assocSet (l : Entry) (k : Str) (v : Value) : Entry :=
  if l.any (fun p => decide (p.1 = k)) then
    l.map (fun p => if p.1 = k then (k, v) else p)
  else l ++ [(k, v)]

/-- Translation of `DataDex.add_dir` (datadex.py lines 270-303) with
`hash_dir` disabled (the default path-naming mode; the claims are
settled in this mode): missing or non-directory paths raise
`RuntimeError`; a missing marker file returns `(False, False)`; the
name is the normalized path; a non-empty parse gets `filename` set and
is handed to `add`; an empty parse reaches the `raise` whose message
formats the undefined name `param_filepath`, so Python raises
`NameError` there, not the written `RuntimeError`. -/
def add_dirOp (info : DirInfo) (db : DB) (dirname : Str) : DB × Except Err (Bool × Bool) :=
  if ¬ info.present then (db, .error .runtimeErr)
  else if ¬ info.isdir then (db, .error .runtimeErr)
  else if ¬ info.hasParams then (db, .ok (false, false))
  else
    let name := normpath dirname
    if info.params.length ≠ 0 then
      match addOp db (assocSet info.params fnameLowerLit (.vstr name)) with
      | (db', .ok added) => (db', .ok (true, added))
      | (db', .error e) => (db', .error e)
    else (db, .error .nameErr)

/-! ## `create_library` and `__init__` -/

/-- A plain column name the engine's `CREATE TABLE (a,b,...)` accepts:
non-empty, identifier characters, no leading digit, not a reserved word
of the emitted fragment. -/
def validColName (s : Str) : Bool :=
  !(s.isEmpty) && s.all isIdentChar && !(isDigitB (s.headD ' ')) &&
  !(([nullLit, ['I', 'S'], ['A', 'N', 'D']]).contains (asciiUpper s))

/-- No two names equal up to ASCII case (SQLite rejects duplicate
column names case-insensitively). -/
def nodupUpper : List Str → Bool
  | [] => true
  | x :: xs => !((xs.map asciiUpper).contains (asciiUpper x)) && nodupUpper xs

/-- Translation of `DataDex.__create_tables` (datadex.py lines 141-158)
against the engine's CREATE validation: the column list is exactly the
schema's keys in order, in their original case (no case normalization
occurs); the engine accepts it when the names are plain and
case-insensitively distinct. The companion HEADERS description table
carries no claim and is not modelled. -/
def createTables (headers : List (Str × Str)) : Except Err (List Str) :=
  let names := headers.map (fun p => p.1)
  if names.all validColName && nodupUpper names then .ok names
  else .error .operationalErr

/-- The `filename` default of `create_library` (datadex.py lines
171-172): appended with a default description when the exact key
`filename` is absent. -/
def addFilenameDefault (hs : List (Str × Str)) : List (Str × Str) :=
  if hs.any (fun p => decide (p.1 = fnameLowerLit)) then hs
  else hs ++ [(fnameLowerLit, ("The data directory".data))]

/-- First-occurrence deduplication, standing in for Python's
`set(self.search())` whose iteration order is unspecified. -/
def dedupAux : List Str → List Str → List Str
  | [], _ => []
  | x :: xs, seen =>
    if seen.contains x then dedupAux xs seen else x :: dedupAux xs (x :: seen)

/-- The migration loop of `create_library` (datadex.py lines 181-188):
re-add every previously known directory, catching only
`sqlite3.OperationalError` into the invalid-directories list
(initialized lazily); any other exception propagates. -/
def migrateLoop (fsdirs : Str → DirInfo) :
    List Str → DB → Option (List Str) → DB × Except Err (Option (List Str))
  | [], db, inv => (db, .ok inv)
  | d :: rest, db, inv =>
    match add_dirOp (fsdirs d) db d with
    | (db', .ok _) => migrateLoop fsdirs rest db' inv
    | (db', .error .operationalErr) => migrateLoop fsdirs rest db' (some ((inv.getD []) ++ [d]))
    | (db', .error e) => (db', .error e)

/-- Translation of `DataDex.create_library` (datadex.py lines 160-189),
taking the parsed schema file directly (parsing is the external JSON
collaborator). The catalog state is `none` when no LIBRARY table
exists. An empty schema raises `ValueError`. When a table exists and
its columns differ from the new ones — or `force` is set — the code
captures the stored directories, drops and recreates the tables, and
re-adds each directory, returning the invalid ones; it raises no
schema-conflict error. -/
def create_libraryOp (fsdirs : Str → DirInfo) (st : Option DB)
    (schema : List (Str × Str)) (force : Bool) :
    Option DB × Except Err (Option (List Str)) :=
  if schema.length = 0 then (st, .error .valueErr)
  else
    let schema' := addFilenameDefault schema
    match st with
    | none =>
      match createTables schema' with
      | .ok names => (some ⟨names, []⟩, .ok none)
      | .error e => (none, .error e)
    | some db =>
      if db.headers ≠ schema'.map (fun p => p.1) ∨ force then
        match searchOp db with
        | .error e => (some db, .error e)
        | .ok dirs =>
          match createTables schema' with
          | .error e => (none, .error e)
          | .ok names =>
            match migrateLoop fsdirs (dedupAux dirs []) ⟨names, []⟩ none with
            | (db', .ok inv) => (some db', .ok inv)
            | (db', .error e) => (some db', .error e)
      else (some db, .ok none)

/-- Translation of `DataDex.__init__` for an explicitly given store
path (datadex.py lines 48-72): an existing path that is not a regular
file raises `ValueError`; then the cached headers are read from the
store (`none` when no LIBRARY table exists — an existing table always
has at least one column, the `some []` case is marked `IndexError` as
Python's `headers[-1]` would raise); a table whose last column is not
`filename` (lower-cased comparison) raises `RuntimeError`. -/
def dexInit (pathPresent isFile : Bool) (tableHeaders : Option (List Str)) :
    Except Err Unit :=
  if pathPresent && !isFile then .error .valueErr
  else
    match tableHeaders with
    | none => .ok ()
    | some [] => .error .indexErr
    | some (h :: t) =>
      if asciiLower ((h :: t).getLastD []) = fnameLowerLit then .ok ()
      else .error .runtimeErr

/-! ## `hash_directory` -/

/-- A directory tree: regular files (name, bytes) and subdirectories
(name, tree), each in the filesystem's enumeration order — the order
`os.walk` and the code's own recursion visit them in. -/
inductive FTree where
  | node : List (Str × List Nat) → List (Str × FTree) → FTree

/-- UTF-8 bytes of a path string (code points; the paths hashed here
are ASCII). -/
def encodeStr (s : Str) : List Nat := s.map Char.toNat

/-- The normalized relative path of a file: components joined by
slashes, as `path.normpath(path.join(root, filename))` yields under the
`.`-rooted walk. -/
def pathText (comps : List Str) : Str := joinSep ['/'] comps

/-- The hasher updates one directory's own files contribute: for each
file in order, the encoded path then the raw bytes (datadex.py lines
23-27). -/
def filesStream (p : List Str) (fs : List (Str × List Nat)) : List Nat :=
  fs.flatMap (fun f => encodeStr (pathText (p ++ [f.1])) ++ f.2)

mutual

/-- The full update stream `hash_directory` feeds the hasher for the
subtree rooted at components `p`. The `for root, ... in os.walk` loop
hashes the files of each walked directory and then recurses by hand
into every subdirectory (datadex.py lines 22-29); since `os.walk`
already descends, each subdirectory's stream is contributed once by
the walk's continuation and once by the manual recursion — the
`hdStream_eq_walk` lemma below states this equivalence against the
literal walk order. -/
def hdStream : List Str → FTree → List Nat
  | p, .node fs ds => filesStream p fs ++ subdirsStream p ds ++ subdirsStream p ds

/-- The concatenated streams of a list of subdirectories. -/
def subdirsStream : List Str → List (Str × FTree) → List Nat
  | _, [] => []
  | p, d :: rest => hdStream (p ++ [d.1]) d.2 ++ subdirsStream p rest

end

mutual

/-- `os.walk` top-down: the directory itself, then the walks of its
subdirectories in order. -/
def walkT : List Str → FTree → List (List Str × FTree)
  | p, .node fs ds => (p, .node fs ds) :: walkTL p ds

/-- The concatenated walks of a list of subdirectories. -/
def walkTL : List Str → List (Str × FTree) → List (List Str × FTree)
  | _, [] => []
  | p, d :: rest => walkT (p ++ [d.1]) d.2 ++ walkTL p rest

end

/-- What one iteration of the `os.walk` loop feeds the hasher: the
walked directory's files, then the full recursive `hash_directory` of
each of its subdirectories. -/
def visitOnce : (List Str × FTree) → List Nat
  | (q, .node fs ds) => filesStream q fs ++ subdirsStream q ds

/-- The (path bytes, file bytes) pairs of one directory's own files. -/
def filePairs (p : List Str) (fs : List (Str × List Nat)) : List (List Nat × List Nat) :=
  fs.map (fun f => (encodeStr (pathText (p ++ [f.1])), f.2))

mutual

/-- The ordered sequence of (encoded path, bytes) hasher visits, in the
same traversal order as `hdStream` (including the doubled subtree
visits). -/
def visitSeq : List Str → FTree → List (List Nat × List Nat)
  | p, .node fs ds => filePairs p fs ++ visitSeqL p ds ++ visitSeqL p ds

/-- The concatenated visit sequences of a list of subdirectories. -/
def visitSeqL : List Str → List (Str × FTree) → List (List Nat × List Nat)
  | _, [] => []
  | p, d :: rest => visitSeq (p ++ [d.1]) d.2 ++ visitSeqL p rest

end

mutual

/-- The relative files of a tree, each once: one (encoded path, bytes)
pair per regular file. Two trees with the same pairs hold the same
bytes at the same relative paths. -/
def fileList : List Str → FTree → List (List Nat × List Nat)
  | p, .node fs ds => filePairs p fs ++ fileListL p ds

/-- The concatenated file lists of a list of subdirectories. -/
def fileListL : List Str → List (Str × FTree) → List (List Nat × List Nat)
  | _, [] => []
  | p, d :: rest => fileList (p ++ [d.1]) d.2 ++ fileListL p rest

end

mutual

/-- State-threaded execution of the recursive body of `hash_directory`
with `hasher` already supplied (datadex.py lines 22-29): the first
component is the process working directory after the call, the second
the bytes fed to the hasher. No statement of the body changes
directory, so the state passes through each step unchanged — which is
what the loop structure here makes explicit. -/
def wrk : Str → List Str → FTree → Str × List Nat
  | cwd, p, .node fs ds =>
    let r1 := wrkL cwd p ds
    let r2 := wrkL r1.1 p ds
    (r2.1, filesStream p fs ++ r1.2 ++ r2.2)

/-- State-threaded recursion over a list of subdirectories. -/
def wrkL : Str → List Str → List (Str × FTree) → Str × List Nat
  | cwd, _, [] => (cwd, [])
  | cwd, p, d :: rest =>
    let r1 := wrk cwd (p ++ [d.1]) d.2
    let r2 := wrkL r1.1 p rest
    (r2.1, r1.2 ++ r2.2)

end

/-- Model of `os.chdir`: the working directory becomes the target,
whatever it was. -/
def chdir (target : Str) (_cur : Str) : Str := target

/-- Translation of a completed top-level `hash_directory(root_dir)`
call (datadex.py lines 11-32): the saved working directory is read
(`cwd = os.getcwd()`), the process moves into the root
(`os.chdir(root_dir)`), the walk runs with `root_dir = "."`, and the
saved directory is restored (`os.chdir(cwd)`); the result is the final
working directory and the digest stream. -/
def hash_directory_run (cwd root : Str) (t : FTree) : Str × List Nat :=
  let saved := cwd
  let s1 := chdir root cwd
  let r := wrk s1 [] t
  (chdir saved r.1, r.2)

section ScratchChecks

/-- A two-column schema plus filename, for concrete checks. -/
def hsLF : List Str := [("label".data), ("filename".data)]

example :
    lookupConds hsLF [(("label".data), .vstr ("5\" pipe".data))] true true =
    [("LABEL IS \"5\"\" pipe\"".data)] := by decide

example :
    (addOp ⟨hsLF, []⟩ [(("label".data), .vstr ("5\" pipe".data))]).2 = .ok true := by decide

example :
    lookupOp (addOp ⟨hsLF, []⟩ [(("label".data), .vstr ("5\" pipe".data))]).1
      [(("label".data), .vstr ("5\" pipe".data))] true true =
    .ok [[some (.vstr ("5\" pipe".data)), none]] := by decide

/-- A schema for the spec's numeric round-trip example. -/
def hsTPF : List Str := [("temperature".data), ("pressure".data), ("filename".data)]

/-- The spec's example entry: temperature 300, pressure 101. -/
def entryTP : Entry := [(("temperature".data), .vint 300), (("pressure".data), .vint 101)]

/-- A schema on which a string value can spell a column name. -/
def hsABF : List Str := [['a'], ['b'], ("filename".data)]

/-- An entry with an embedded-quote value whose other value `"b"`
spells the column `b`. -/
def entryAB : Entry := [(['a'], .vstr ['b']), (['b'], .vstr ("5\" pipe".data))]

/-- A present directory whose marker file parses to `{"a": "b"}`. -/
def infoA : DirInfo := ⟨true, true, true, [(['a'], .vstr ['b'])]⟩

/-- A present directory whose marker file parses to `{"label": "run1"}`. -/
def infoLabel : DirInfo := ⟨true, true, true, [(("label".data), .vstr ("run1".data))]⟩

/-- A directory holding files `a` (byte 0) and `b` (byte 1), in that
enumeration order. -/
def tFiles1 : FTree := .node [(['a'], [0]), (['b'], [1])] []

/-- The same two files enumerated in the other order. -/
def tFiles2 : FTree := .node [(['b'], [1]), (['a'], [0])] []

/-- A directory holding the single file `a` (byte 0). -/
def tSolo : FTree := .node [(['a'], [0])] []

/-- The same file plus an empty subdirectory `d`. -/
def tSoloD : FTree := .node [(['a'], [0])] [(['d'], .node [] [])]

end ScratchChecks

/-! ## Character-level facts -/

theorem isIdentChar_lt (c : Char) (h : isIdentChar c = true) : c.toNat < 128 := by
  simp only [isIdentChar, Bool.or_eq_true, Bool.and_eq_true, decide_eq_true_eq,
    beq_iff_eq] at h
  omega

theorem upChar_facts (c : Char) (h : c.toNat < 128) :
    upChar (upChar c) = upChar c ∧ (isIdentChar c = true → isIdentChar (upChar c) = true) := by
  have key : ∀ n, n < 128 →
      upChar (upChar (Char.ofNat n)) = upChar (Char.ofNat n) ∧
      (isIdentChar (Char.ofNat n) = true → isIdentChar (upChar (Char.ofNat n)) = true) := by
    decide
  have h2 := key c.toNat h
  rwa [Char.ofNat_toNat] at h2

theorem upChar_idem (c : Char) (h : isIdentChar c = true) :
    upChar (upChar c) = upChar c :=
  (upChar_facts c (isIdentChar_lt c h)).1

theorem isIdentChar_upChar (c : Char) (h : isIdentChar c = true) :
    isIdentChar (upChar c) = true :=
  (upChar_facts c (isIdentChar_lt c h)).2 h

theorem asciiUpper_idem (s : Str) (h : ∀ c ∈ s, isIdentChar c = true) :
    asciiUpper (asciiUpper s) = asciiUpper s := by
  simp only [asciiUpper, List.map_map]
  exact List.map_congr_left (fun c hc => upChar_idem c (h c hc))

theorem asciiUpper_ident (s : Str) (h : ∀ c ∈ s, isIdentChar c = true) :
    ∀ c ∈ asciiUpper s, isIdentChar c = true := by
  intro c hc
  simp only [asciiUpper, List.mem_map] at hc
  obtain ⟨a, ha, rfl⟩ := hc
  exact isIdentChar_upChar a (h a ha)

/-! ## Generic scanning lemmas -/

/-- The head of the remaining input fails the scan predicate (or the
input is exhausted): the condition under which maximal munch stops
exactly at a boundary. -/
def headFails (p : α → Bool) : List α → Prop
  | [] => True
  | a :: _ => p a = false

theorem takeWhile_all_append {p : α → Bool} {l r : List α}
    (hl : ∀ a ∈ l, p a = true) (hr : headFails p r) :
    (l ++ r).takeWhile p = l ∧ (l ++ r).dropWhile p = r := by
  induction l with
  | nil =>
    cases r with
    | nil => simp
    | cons a r =>
      simp only [headFails] at hr
      simp [List.takeWhile_cons, List.dropWhile_cons, hr]
  | cons a l ih =>
    have ha := hl a (by simp)
    have ih' := ih (fun x hx => hl x (by simp [hx]))
    simp [List.takeWhile_cons, List.dropWhile_cons, ha, ih'.1, ih'.2]

theorem dropLit_self (pat r : Str) : dropLit pat (pat ++ r) = some r := by
  have h : pat.isPrefixOf (pat ++ r) = true :=
    List.isPrefixOf_iff_prefix.mpr (List.prefix_append pat r)
  simp [dropLit, h, List.drop_left]

/-! ## Round trip of the quoted-token escape -/

/-- The remaining input does not begin with a quote, so a closing quote
before it really closes the token. -/
def qheadOk : Str → Prop
  | [] => True
  | c :: _ => c ≠ '"'

theorem sql_escape_cons (c : Char) (s : Str) :
    sql_escape (c :: s) = (if c = '"' then ['"', '"'] else [c]) ++ sql_escape s := rfl

theorem scanQuoted_cons_ne (c : Char) (rest : Str) (hc : c ≠ '"') :
    scanQuoted (c :: rest) = (scanQuoted rest).map (fun p => (c :: p.1, p.2)) := by
  simp [scanQuoted, hc]

theorem scanQuoted_quote_quote (rest : Str) :
    scanQuoted ('"' :: '"' :: rest) = (scanQuoted rest).map (fun p => ('"' :: p.1, p.2)) := by
  simp [scanQuoted, scanQuotedClose]

theorem scanQuoted_quote_stop (rest : Str) (h : qheadOk rest) :
    scanQuoted ('"' :: rest) = some ([], rest) := by
  cases rest with
  | nil => simp [scanQuoted, scanQuotedClose]
  | cons c r =>
    simp only [qheadOk] at h
    simp [scanQuoted, scanQuotedClose, h]

theorem scanQuoted_escape (s : Str) : ∀ r : Str, qheadOk r →
    scanQuoted (sql_escape s ++ '"' :: r) = some (s, r) := by
  induction s with
  | nil =>
    intro r hr
    exact scanQuoted_quote_stop r hr
  | cons c s ih =>
    intro r hr
    by_cases hc : c = '"'
    · subst hc
      rw [sql_escape_cons, if_pos rfl]
      simp only [List.cons_append, List.nil_append]
      rw [scanQuoted_quote_quote, ih r hr]
      rfl
    · rw [sql_escape_cons, if_neg hc]
      simp only [List.cons_append, List.nil_append]
      rw [scanQuoted_cons_ne _ _ hc, ih r hr]
      rfl

theorem sql_escape_id (s : Str) (h : ∀ c ∈ s, c ≠ '"') : sql_escape s = s := by
  induction s with
  | nil => rfl
  | cons c s ih =>
    have hc : c ≠ '"' := h c (by simp)
    simp [sql_escape, List.flatMap_cons, hc]
    exact ih (fun x hx => h x (by simp [hx]))

/-! ## Round trip of decimal rendering -/

theorem digitChar_facts : ∀ m, m < 10 →
    (Nat.digitChar m).toNat = 48 + m ∧ isDigitB (Nat.digitChar m) = true := by
  decide

theorem isDigitB_props (c : Char) (h : isDigitB c = true) :
    c ≠ '"' ∧ c ≠ '-' ∧ isIdentChar c = true := by
  simp only [isDigitB, Bool.and_eq_true, decide_eq_true_eq] at h
  refine ⟨?_, ?_, ?_⟩
  · intro hq
    subst hq
    revert h
    decide
  · intro hq
    subst hq
    revert h
    decide
  · simp only [isIdentChar, Bool.or_eq_true, Bool.and_eq_true, decide_eq_true_eq, beq_iff_eq]
    omega

theorem digitsVal_snoc (ds : Str) (c : Char) :
    digitsVal (ds ++ [c]) = 10 * digitsVal ds + (c.toNat - 48) := by
  simp [digitsVal, List.foldl_append]

theorem toDigitsCore_spec : ∀ (fuel n : Nat) (acc : List Char), n < fuel →
    ∃ ds : Str, Nat.toDigitsCore 10 fuel n acc = ds ++ acc ∧ ds ≠ [] ∧
      (∀ c ∈ ds, isDigitB c = true) ∧ digitsVal ds = n := by
  intro fuel
  induction fuel with
  | zero => intro n acc h; exact absurd h (Nat.not_lt_zero n)
  | succ fuel ih =>
    intro n acc hn
    rw [Nat.toDigitsCore.eq_2]
    by_cases h10 : n / 10 = 0
    · rw [if_pos h10]
      refine ⟨[Nat.digitChar (n % 10)], rfl, by simp, ?_, ?_⟩
      · intro c hc
        simp only [List.mem_singleton] at hc
        subst hc
        exact (digitChar_facts (n % 10) (Nat.mod_lt n (by omega) |>.trans_le (by omega))).2
      · have hm := (digitChar_facts (n % 10) (by omega)).1
        simp [digitsVal, hm]
        omega
    · rw [if_neg h10]
      obtain ⟨ds, hds, hne, hdig, hval⟩ := ih (n / 10) (Nat.digitChar (n % 10) :: acc) (by omega)
      refine ⟨ds ++ [Nat.digitChar (n % 10)], ?_, by simp, ?_, ?_⟩
      · rw [hds, List.append_assoc]
        rfl
      · intro c hc
        rcases List.mem_append.mp hc with h | h
        · exact hdig c h
        · simp only [List.mem_singleton] at h
          subst h
          exact (digitChar_facts (n % 10) (by omega)).2
      · rw [digitsVal_snoc, hval, (digitChar_facts (n % 10) (by omega)).1]
        omega

theorem natRepr_digits (n : Nat) :
    (∀ c ∈ natRepr n, isDigitB c = true) ∧ natRepr n ≠ [] ∧ digitsVal (natRepr n) = n := by
  obtain ⟨ds, hds, hne, hdig, hval⟩ := toDigitsCore_spec (n + 1) n [] (by omega)
  have : natRepr n = ds := by
    simp only [natRepr, Nat.toDigits]
    rw [hds, List.append_nil]
  rw [this]
  exact ⟨hdig, hne, hval⟩

theorem scanNat_repr (n : Nat) (r : Str) (hr : headFails isDigitB r) :
    scanNat (natRepr n ++ r) = some (n, r) := by
  obtain ⟨hdig, hne, hval⟩ := natRepr_digits n
  obtain ⟨ht, hd⟩ := takeWhile_all_append hdig hr
  simp [scanNat, ht, hd, hne, hval]

/-! ## Round trip of whole tokens and comparisons -/

/-- The remaining input begins with a separator of the emitted fragment
(space or comma) or ends: no token of the fragment extends into it. -/
def stopOk : Str → Prop
  | [] => True
  | c :: _ => c = ' ' ∨ c = ','

theorem stopOk_qheadOk (r : Str) (h : stopOk r) : qheadOk r := by
  cases r with
  | nil => trivial
  | cons c rest =>
    simp only [stopOk] at h
    rcases h with rfl | rfl <;> simp [qheadOk]

theorem stopOk_digit (r : Str) (h : stopOk r) : headFails isDigitB r := by
  cases r with
  | nil => trivial
  | cons c rest =>
    simp only [stopOk] at h
    rcases h with rfl | rfl <;> simp [headFails, isDigitB]

theorem stopOk_ident (r : Str) (h : stopOk r) : headFails isIdentChar r := by
  cases r with
  | nil => trivial
  | cons c rest =>
    simp only [stopOk] at h
    rcases h with rfl | rfl <;> simp [headFails, isIdentChar]

theorem scanTok_vstr (s r : Str) (hr : stopOk r) :
    scanTok (renderLit (.vstr s) ++ r) = some (.tquoted s, r) := by
  have h1 : renderLit (.vstr s) ++ r = '"' :: (sql_escape s ++ '"' :: r) := by
    simp [renderLit]
  rw [h1]
  simp [scanTok, scanQuoted_escape s r (stopOk_qheadOk r hr)]

theorem scanTok_natRepr (m : Nat) (r : Str) (hr : stopOk r) :
    scanTok (natRepr m ++ r) = some (.tint (m : Int), r) := by
  obtain ⟨hdig, hne, hval⟩ := natRepr_digits m
  obtain ⟨d, ds, hds⟩ := List.exists_cons_of_ne_nil hne
  have hd : isDigitB d = true := hdig d (by rw [hds]; simp)
  obtain ⟨hq, hm, _⟩ := isDigitB_props d hd
  have hscan : scanNat (natRepr m ++ r) = some (m, r) := scanNat_repr m r (stopOk_digit r hr)
  rw [hds] at hscan ⊢
  simp only [List.cons_append]
  simp only [List.cons_append] at hscan
  simp [scanTok, hq, hm, hd, hscan]

theorem scanTok_vint (n : Int) (r : Str) (hr : stopOk r) :
    scanTok (renderLit (.vint n) ++ r) = some (.tint n, r) := by
  by_cases hn : n < 0
  · have h1 : renderLit (.vint n) ++ r = '-' :: (natRepr n.natAbs ++ r) := by
      simp [renderLit, intRepr, hn]
    rw [h1]
    have hscan : scanNat (natRepr n.natAbs ++ r) = some (n.natAbs, r) :=
      scanNat_repr n.natAbs r (stopOk_digit r hr)
    have h2 : -|n| = n := by
      rw [abs_of_neg hn, neg_neg]
    simp [scanTok, hscan, h2]
  · have h1 : renderLit (.vint n) ++ r = natRepr n.toNat ++ r := by
      simp [renderLit, intRepr, hn]
    rw [h1, scanTok_natRepr n.toNat r hr, Int.toNat_of_nonneg (not_lt.mp hn)]

theorem scanTok_NULL (r : Str) (hr : stopOk r) :
    scanTok (nullLit ++ r) = some (.tbare nullLit, r) := by
  have hsub := takeWhile_all_append (l := ['U', 'L', 'L']) (r := r) (by decide)
    (stopOk_ident r hr)
  have ht2 : List.takeWhile isIdentChar ('U' :: 'L' :: 'L' :: r) = ['U', 'L', 'L'] := by
    simpa using hsub.1
  have hd2 : List.dropWhile isIdentChar ('U' :: 'L' :: 'L' :: r) = r := by
    simpa using hsub.2
  have h1 : nullLit ++ r = 'N' :: 'U' :: 'L' :: 'L' :: r := rfl
  rw [h1]
  have c1 : ¬('N' = '"') := by decide
  have c2 : ¬('N' = '-') := by decide
  have c3 : isDigitB 'N' = false := by decide
  have c4 : isIdentChar 'N' = true := by decide
  simp [scanTok, c1, c2, c3, c4, ht2, hd2, nullLit]

/-- The comparison text scans back to the comparison, whatever
separator-headed remainder follows. -/
def condStrOk (s : Str) (c : Cond) : Prop :=
  ∀ r, stopOk r → scanCond (s ++ r) = some (c, r)

theorem headFails_isLit (x : Str) : headFails isIdentChar (isLit ++ x) := by
  show isIdentChar ' ' = false
  decide

theorem condStrOk_IS (f : Str) (hne : f ≠ []) (hid : ∀ c ∈ f, isIdentChar c = true)
    (ts : Str) (tk : Tok) (htok : ∀ r, stopOk r → scanTok (ts ++ r) = some (tk, r)) :
    condStrOk (asciiUpper f ++ isLit ++ ts) ⟨asciiUpper f, true, tk⟩ := by
  intro r hr
  have hupid := asciiUpper_ident f hid
  have hne' : asciiUpper f ≠ [] := by
    simpa [asciiUpper] using hne
  obtain ⟨ht, hd⟩ :=
    takeWhile_all_append (l := asciiUpper f) (r := isLit ++ (ts ++ r)) hupid
      (headFails_isLit (ts ++ r))
  have hassoc : asciiUpper f ++ isLit ++ ts ++ r = asciiUpper f ++ (isLit ++ (ts ++ r)) := by
    simp [List.append_assoc]
  rw [hassoc]
  simp only [scanCond]
  rw [ht, hd, if_neg hne', dropLit_self]
  simp [htok r hr]

theorem scanTok_bare (w : Str) (hne : w ≠ []) (hid : ∀ c ∈ w, isIdentChar c = true)
    (hq : ¬(w.headD ' ' = '"')) (hm : ¬(w.headD ' ' = '-'))
    (hdg : isDigitB (w.headD ' ') = false) (r : Str) (hr : stopOk r) :
    scanTok (w ++ r) = some (.tbare w, r) := by
  obtain ⟨c, cs, rfl⟩ := List.exists_cons_of_ne_nil hne
  simp only [List.headD_cons] at hq hm hdg
  have hc : isIdentChar c = true := hid c (by simp)
  have hsub := takeWhile_all_append (l := cs) (r := r)
    (fun x hx => hid x (by simp [hx])) (stopOk_ident r hr)
  simp only [List.cons_append]
  simp [scanTok, hq, hm, hdg, hc, hsub.1, hsub.2]

theorem scanTok_None (r : Str) (hr : stopOk r) :
    scanTok (renderLit .vnull ++ r) = some (.tbare (['N', 'o', 'n', 'e']), r) :=
  scanTok_bare (['N', 'o', 'n', 'e']) (by decide) (by decide) (by decide) (by decide)
    (by decide) r hr

/-- The token the engine's scanner reads back from `renderLit`. -/
def tokOf : Value → Tok
  | .vstr s => .tquoted s
  | .vint n => .tint n
  | .vnull => .tbare (['N', 'o', 'n', 'e'])

theorem scanTok_renderLit (v : Value) (r : Str) (hr : stopOk r) :
    scanTok (renderLit v ++ r) = some (tokOf v, r) := by
  cases v with
  | vstr s => exact scanTok_vstr s r hr
  | vint n => exact scanTok_vint n r hr
  | vnull => exact scanTok_None r hr

theorem condText_ok (f : Str) (v : Value) (hne : f ≠ [])
    (hid : ∀ c ∈ f, isIdentChar c = true) :
    condStrOk (condText f v) ⟨asciiUpper f, true, tokOf v⟩ :=
  condStrOk_IS f hne hid (renderLit v) (tokOf v) (scanTok_renderLit v)

theorem condNull_ok (h : Str) (hne : h ≠ []) (hid : ∀ c ∈ h, isIdentChar c = true) :
    condStrOk (asciiUpper h ++ isLit ++ nullLit) ⟨asciiUpper h, true, .tbare nullLit⟩ :=
  condStrOk_IS h hne hid nullLit (.tbare nullLit) scanTok_NULL

theorem dropLit_isLit_eqLit (x : Str) : dropLit isLit (eqLit ++ x) = none := rfl

theorem headFails_eqLit (x : Str) : headFails isIdentChar (eqLit ++ x) := by
  show isIdentChar ' ' = false
  decide

theorem condStrOk_prune (d : Str) (hq : ∀ c ∈ d, c ≠ '"') :
    condStrOk (fnameUpperLit ++ eqLit ++ ('"' :: (d ++ ['"'])))
      ⟨fnameUpperLit, false, .tquoted d⟩ := by
  intro r hr
  have hid : ∀ c ∈ fnameUpperLit, isIdentChar c = true := by decide
  have hne' : fnameUpperLit ≠ [] := by decide
  obtain ⟨ht, hd⟩ :=
    takeWhile_all_append (l := fnameUpperLit) (r := eqLit ++ ('"' :: (d ++ ['"'] ++ r))) hid
      (headFails_eqLit ('"' :: (d ++ ['"'] ++ r)))
  have hassoc : fnameUpperLit ++ eqLit ++ ('"' :: (d ++ ['"'])) ++ r =
      fnameUpperLit ++ (eqLit ++ ('"' :: (d ++ ['"'] ++ r))) := by
    simp [List.append_assoc]
  rw [hassoc]
  have hscan : scanTok ('"' :: (d ++ '"' :: r)) = some (.tquoted d, r) := by
    have hesc : sql_escape d = d := sql_escape_id d hq
    rw [show d ++ '"' :: r = sql_escape d ++ '"' :: r by rw [hesc]]
    simp [scanTok, scanQuoted_escape d r (stopOk_qheadOk r hr)]
  simp only [scanCond]
  rw [ht, hd, if_neg hne', dropLit_isLit_eqLit, dropLit_self]
  simp [hscan]

/-! ## Round trip of joined comparison lists -/

theorem length_le_joinSep (sep : Str) : ∀ strs : List Str, (∀ s ∈ strs, s ≠ []) →
    strs.length ≤ (joinSep sep strs).length + 1 := by
  intro strs
  induction strs with
  | nil => intro _; simp
  | cons x rest ih =>
    intro h
    cases rest with
    | nil => simp [joinSep]
    | cons y rest2 =>
      have hx : x ≠ [] := h x (by simp)
      have ihh := ih (fun s hs => h s (by simp [hs]))
      have hxlen : 1 ≤ x.length := List.length_pos.mpr hx
      simp only [joinSep, List.length_append, List.length_cons] at ihh ⊢
      omega

theorem scanConds_join : ∀ l : List (Str × Cond), (∀ p ∈ l, condStrOk p.1 p.2) → l ≠ [] →
    ∀ fuel, l.length ≤ fuel →
    scanConds fuel (joinSep andLit (l.map (fun p => p.1))) = some (l.map (fun p => p.2)) := by
  intro l
  induction l with
  | nil => intro _ hne; exact absurd rfl hne
  | cons p rest ih =>
    intro hok _ fuel hfuel
    cases fuel with
    | zero => simp at hfuel
    | succ fuel =>
      cases rest with
      | nil =>
        have hc := hok p (by simp) [] trivial
        rw [List.append_nil] at hc
        simp [joinSep, scanConds, hc]
      | cons q rest2 =>
        have hstop : stopOk (andLit ++ joinSep andLit ((q :: rest2).map (fun p => p.1))) :=
          Or.inl rfl
        have hc := hok p (by simp) _ hstop
        have hihyp := ih (fun x hx => hok x (by simp [hx])) (by simp) fuel (by
          simp only [List.length_cons] at hfuel ⊢
          omega)
        have handlit : ¬(andLit = []) := by decide
        simp only [List.map_cons] at hihyp ⊢
        rw [show joinSep andLit (p.1 :: q.1 :: List.map (fun p => p.1) rest2) =
            p.1 ++ andLit ++ joinSep andLit (q.1 :: List.map (fun p => p.1) rest2) from rfl]
        rw [List.append_assoc]
        simp only [List.map_cons] at hc
        simp [scanConds, hc, handlit, dropLit_self, hihyp]

/-! ## Name resolution facts -/

theorem colIdx?_none_iff (hs : List Str) (name : Str) :
    colIdx? hs name = none ↔ ∀ h ∈ hs, asciiUpper h ≠ asciiUpper name := by
  induction hs with
  | nil => simp [colIdx?]
  | cons h t ih =>
    by_cases he : asciiUpper h = asciiUpper name
    · simp [colIdx?, he]
    · simp [colIdx?, he, ih]

theorem mem_map_upper (t : List Str) (x : Str) :
    ((t.map asciiUpper).contains (asciiUpper x) = true) ↔
      ∃ y ∈ t, asciiUpper y = asciiUpper x := by
  induction t with
  | nil => simp
  | cons z t ih =>
    simp only [List.map_cons, List.contains_cons, Bool.or_eq_true, beq_iff_eq, ih]
    constructor
    · rintro (he | ⟨y, hy, he⟩)
      · exact ⟨z, by simp, he.symm⟩
      · exact ⟨y, by simp [hy], he⟩
    · rintro ⟨y, hy, he⟩
      rcases List.mem_cons.mp hy with rfl | hy2
      · exact Or.inl he.symm
      · exact Or.inr ⟨y, hy2, he⟩

theorem nodupUpper_eq_of_mem (hs : List Str) (hnd : nodupUpper hs = true)
    {k h : Str} (hk : k ∈ hs) (hh : h ∈ hs) (he : asciiUpper k = asciiUpper h) : k = h := by
  induction hs with
  | nil => cases hk
  | cons x t ih =>
    simp only [nodupUpper, Bool.and_eq_true, Bool.not_eq_true'] at hnd
    obtain ⟨hx, ht⟩ := hnd
    have hx' : ¬ ∃ y ∈ t, asciiUpper y = asciiUpper x := by
      intro hex
      have := (mem_map_upper t x).mpr hex
      rw [this] at hx
      cases hx
    rcases List.mem_cons.mp hk with rfl | hk2
    · rcases List.mem_cons.mp hh with rfl | hh2
      · rfl
      · exact absurd ⟨h, hh2, he.symm⟩ hx'
    · rcases List.mem_cons.mp hh with rfl | hh2
      · exact absurd ⟨k, hk2, he⟩ hx'
      · exact ih ht hk2 hh2

theorem nodupUpper_nodup (hs : List Str) (hnd : nodupUpper hs = true) : hs.Nodup := by
  induction hs with
  | nil => exact List.nodup_nil
  | cons x t ih =>
    simp only [nodupUpper, Bool.and_eq_true, Bool.not_eq_true'] at hnd
    obtain ⟨hx, ht⟩ := hnd
    refine List.nodup_cons.mpr ⟨?_, ih ht⟩
    intro hmem
    have : (t.map asciiUpper).contains (asciiUpper x) = true :=
      (mem_map_upper t x).mpr ⟨x, hmem, rfl⟩
    rw [this] at hx
    cases hx

theorem colIdx?_get_unique (hs : List Str) (hnd : nodupUpper hs = true) :
    ∀ (i : Nat) (f name : Str), hs.get? i = some f → asciiUpper f = asciiUpper name →
    colIdx? hs name = some i := by
  induction hs with
  | nil => intro i f name hget; simp at hget
  | cons x t ih =>
    intro i f name hget hmatch
    simp only [nodupUpper, Bool.and_eq_true, Bool.not_eq_true'] at hnd
    obtain ⟨hx, ht⟩ := hnd
    cases i with
    | zero =>
      simp only [List.get?] at hget
      injection hget with hget
      subst hget
      simp [colIdx?, hmatch]
    | succ j =>
      simp only [List.get?] at hget
      have hf : f ∈ t := List.get?_mem hget
      have hne : ¬(asciiUpper x = asciiUpper name) := by
        intro hxe
        have : (t.map asciiUpper).contains (asciiUpper x) = true :=
          (mem_map_upper t x).mpr ⟨f, hf, by rw [hmatch, hxe]⟩
        rw [this] at hx
        cases hx
      simp [colIdx?, hne, ih ht j f name hget hmatch]

/-- The column index an entry key resolves to (defined for keys that do
resolve; `colIdx?_get_unique` pins its value). -/
def idxOf (hs : List Str) (k : Str) : Nat := (colIdx? hs (asciiUpper k)).getD 0

theorem idxOf_spec (hs : List Str) (hnd : nodupUpper hs = true) (k : Str)
    (hid : ∀ c ∈ k, isIdentChar c = true) (hmem : k ∈ hs) :
    colIdx? hs (asciiUpper k) = some (idxOf hs k) ∧ hs.get? (idxOf hs k) = some k := by
  obtain ⟨i, hget⟩ := List.get?_of_mem hmem
  have hcol : colIdx? hs (asciiUpper k) = some i :=
    colIdx?_get_unique hs hnd i k (asciiUpper k) hget (asciiUpper_idem k hid).symm
  refine ⟨?_, ?_⟩
  · rw [hcol]
    simp [idxOf, hcol]
  · rw [show idxOf hs k = i from by simp [idxOf, hcol]]
    exact hget

theorem find?_congr_mem {α} (p q : α → Bool) : ∀ l : List α,
    (∀ a ∈ l, p a = q a) → l.find? p = l.find? q := by
  intro l
  induction l with
  | nil => intro _; rfl
  | cons a t ih =>
    intro h
    have ha := h a (by simp)
    by_cases hp : p a = true
    · rw [List.find?_cons_of_pos _ hp, List.find?_cons_of_pos _ (ha ▸ hp)]
    · have hp' : p a = false := by
        cases hpa : p a
        · rfl
        · exact absurd hpa hp
      rw [List.find?_cons_of_neg _ (by simp [hp']), List.find?_cons_of_neg _ (by simp [ha ▸ hp'])]
      exact ih (fun x hx => h x (by simp [hx]))

theorem find?_entry_self (entry : Entry) (f : Str) (v : Value)
    (hnd : nodupUpper (entry.map (fun p => p.1)) = true) (hmem : (f, v) ∈ entry) :
    entry.find? (fun p => asciiUpper p.1 == asciiUpper f) = some (f, v) := by
  induction entry with
  | nil => cases hmem
  | cons q t ih =>
    simp only [List.map_cons, nodupUpper, Bool.and_eq_true, Bool.not_eq_true'] at hnd
    obtain ⟨hx, ht⟩ := hnd
    rcases List.mem_cons.mp hmem with rfl | hmem2
    · exact List.find?_cons_of_pos _ (by simp)
    · have hne : ¬(asciiUpper q.1 = asciiUpper f) := by
        intro he
        have : ((t.map (fun p => p.1)).map asciiUpper).contains (asciiUpper q.1) = true := by
          refine (mem_map_upper _ _).mpr ⟨f, ?_, he.symm⟩
          exact List.mem_map.mpr ⟨(f, v), hmem2, rfl⟩
        rw [this] at hx
        cases hx
      rw [List.find?_cons_of_neg _ (by simp [hne])]
      exact ih ht hmem2

theorem find?_entry_none (entry : Entry) (f : Str)
    (hnone : ∀ p ∈ entry, ¬(asciiUpper p.1 = asciiUpper f)) :
    entry.find? (fun p => asciiUpper p.1 == asciiUpper f) = none := by
  rw [List.find?_eq_none]
  intro p hp
  simp [hnone p hp]

/-! ## Validity hypotheses and resolution of the built conditions -/

/-- The columns of a well-formed catalog: plain names, pairwise
distinct up to case (what `CREATE TABLE` enforced). -/
def ValidHeaders (hs : List Str) : Prop :=
  (∀ h ∈ hs, validColName h = true) ∧ nodupUpper hs = true

/-- An entry the round-trip claims are about: keys are schema columns
(exactly as spelled there), pairwise distinct up to case; values are
not `None`; and no string value spells a column name up to case (the
double-quote misfeature would read it as a column reference). -/
def ValidEntry (hs : List Str) (entry : Entry) : Prop :=
  (∀ p ∈ entry, p.1 ∈ hs) ∧ nodupUpper (entry.map (fun p => p.1)) = true ∧
  (∀ p ∈ entry, p.2 ≠ .vnull) ∧
  (∀ p ∈ entry, ∀ s, p.2 = .vstr s → colIdx? hs s = none)

theorem validColName_props (s : Str) (h : validColName s = true) :
    s ≠ [] ∧ ∀ c ∈ s, isIdentChar c = true := by
  simp only [validColName, Bool.and_eq_true, Bool.not_eq_true'] at h
  obtain ⟨⟨⟨h1, h2⟩, _⟩, _⟩ := h
  refine ⟨?_, ?_⟩
  · intro hnil
    subst hnil
    simp at h1
  · intro c hc
    exact List.all_eq_true.mp h2 c hc

theorem mapM_ok {α β : Type} (f : α → Except Err β) (g : α → β) :
    ∀ l : List α, (∀ a ∈ l, f a = .ok (g a)) → l.mapM f = .ok (l.map g) := by
  intro l
  induction l with
  | nil => intro _; rfl
  | cons a t ih =>
    intro h
    rw [List.mapM_cons, h a (by simp), ih (fun x hx => h x (by simp [hx]))]
    rfl

/-- How the engine resolves every comparison the builders emit (the
left side is an existing column; a quoted right side that names no
column is a string, `NULL` is the null literal). -/
def rcondOfCond (hs : List Str) (c : Cond) : RCond :=
  ⟨(colIdx? hs c.lhs).getD 0, c.isIs,
    match c.rhs with
    | .tquoted s => .lit (some (.vstr s))
    | .tint n => .lit (some (.vint n))
    | .tbare _ => .lit none⟩

theorem rcondOfCond_field (hs : List Str) (f : Str) (v : Value) (hvn : v ≠ .vnull) :
    rcondOfCond hs ⟨asciiUpper f, true, tokOf v⟩ = ⟨idxOf hs f, true, .lit (some v)⟩ := by
  cases v with
  | vstr s => rfl
  | vint n => rfl
  | vnull => exact absurd rfl hvn

theorem rcondOfCond_null (hs : List Str) (h : Str) :
    rcondOfCond hs ⟨asciiUpper h, true, .tbare nullLit⟩ = ⟨idxOf hs h, true, .lit none⟩ := rfl

theorem resolveCond_field (hs : List Str) (HH : ValidHeaders hs) (f : Str) (v : Value)
    (hmem : f ∈ hs) (hvn : v ≠ .vnull)
    (hstr : ∀ s, v = .vstr s → colIdx? hs s = none) :
    resolveCond hs ⟨asciiUpper f, true, tokOf v⟩ =
      .ok (rcondOfCond hs ⟨asciiUpper f, true, tokOf v⟩) := by
  obtain ⟨hcol, hget⟩ :=
    idxOf_spec hs HH.2 f (validColName_props f (HH.1 f hmem)).2 hmem
  rw [rcondOfCond_field hs f v hvn]
  simp only [resolveCond, hcol]
  cases v with
  | vstr s =>
    simp [resolveCondTok, tokOf, hstr s rfl]
    rfl
  | vint n => rfl
  | vnull => exact absurd rfl hvn

theorem resolveCond_null (hs : List Str) (HH : ValidHeaders hs) (h : Str) (hmem : h ∈ hs) :
    resolveCond hs ⟨asciiUpper h, true, .tbare nullLit⟩ =
      .ok (rcondOfCond hs ⟨asciiUpper h, true, .tbare nullLit⟩) := by
  obtain ⟨hcol, hget⟩ :=
    idxOf_spec hs HH.2 h (validColName_props h (HH.1 h hmem)).2 hmem
  rw [rcondOfCond_null]
  have hnl : asciiUpper nullLit = nullLit := by decide
  simp only [resolveCond, hcol]
  simp [resolveCondTok, hnl]
  rfl

/-! ## Evaluation on the inserted row -/

theorem entryRow_get (hs : List Str) (entry : Entry) (i : Nat) (h : Str)
    (hget : hs.get? i = some h) :
    rowGet (entryRow hs entry) i =
      (entry.find? (fun p => asciiUpper p.1 == asciiUpper h)).map (fun p => p.2) := by
  have hget' : hs[i]? = some h := by
    rw [← List.get?_eq_getElem?]
    exact hget
  simp [rowGet, entryRow, List.get?_eq_getElem?, List.getElem?_map, hget']

theorem evalRCond_entryRow_field (hs : List Str) (entry : Entry)
    (HH : ValidHeaders hs) (HE : ValidEntry hs entry) (f : Str) (v : Value)
    (hmem : (f, v) ∈ entry) :
    evalRCond (entryRow hs entry) ⟨idxOf hs f, true, .lit (some v)⟩ = true := by
  have hfhs : f ∈ hs := HE.1 (f, v) hmem
  obtain ⟨hcol, hget⟩ :=
    idxOf_spec hs HH.2 f (validColName_props f (HH.1 f hfhs)).2 hfhs
  simp [evalRCond, evalRVal, entryRow_get hs entry _ f hget,
    find?_entry_self entry f v HE.2.1 hmem]

theorem evalRCond_entryRow_null (hs : List Str) (entry : Entry)
    (HH : ValidHeaders hs) (HE : ValidEntry hs entry) (h : Str)
    (hmem : h ∈ hs) (habs : ∀ p ∈ entry, p.1 ≠ h) :
    evalRCond (entryRow hs entry) ⟨idxOf hs h, true, .lit none⟩ = true := by
  have hnone : ∀ p ∈ entry, ¬(asciiUpper p.1 = asciiUpper h) := by
    intro p hp he
    exact habs p hp (nodupUpper_eq_of_mem hs HH.2 (HE.1 p hp) hmem he)
  obtain ⟨hcol, hget⟩ :=
    idxOf_spec hs HH.2 h (validColName_props h (HH.1 h hmem)).2 hmem
  simp [evalRCond, evalRVal, entryRow_get hs entry _ h hget,
    find?_entry_none entry h hnone]

/-! ## The lookup conditions as (text, comparison) pairs -/

/-- The condition fragments of `lookup` at the default flags, paired
with the comparison each scans back to. -/
def lookupPairs (hs : List Str) (entry : Entry) : List (Str × Cond) :=
  (entry.filterMap fun p =>
    if asciiLower p.1 = fnameLowerLit then none
    else some (condText p.1 p.2, (⟨asciiUpper p.1, true, tokOf p.2⟩ : Cond))) ++
  (hs.filterMap fun h =>
    if asciiLower h = fnameLowerLit then none
    else if entry.any (fun p => decide (p.1 = h)) then none
    else some (asciiUpper h ++ isLit ++ nullLit, (⟨asciiUpper h, true, .tbare nullLit⟩ : Cond)))

theorem filterMap_fst {α β γ : Type} (f : α → Option (β × γ)) (g : α → Option β)
    (h : ∀ a, (f a).map (fun q => q.1) = g a) (l : List α) :
    (l.filterMap f).map (fun q => q.1) = l.filterMap g := by
  induction l with
  | nil => rfl
  | cons a t ih =>
    cases hfa : f a with
    | none =>
      have hga : g a = none := by
        rw [← h a, hfa]
        rfl
      rw [List.filterMap_cons_none hfa, List.filterMap_cons_none hga]
      exact ih
    | some b =>
      have hga : g a = some b.1 := by
        rw [← h a, hfa]
        rfl
      rw [List.filterMap_cons_some hfa, List.filterMap_cons_some hga, List.map_cons, ih]

theorem lookupConds_eq_pairs (hs : List Str) (entry : Entry) :
    lookupConds hs entry true true = (lookupPairs hs entry).map (fun p => p.1) := by
  unfold lookupConds lookupPairs
  rw [if_pos rfl, List.map_append]
  congr 1
  · refine (filterMap_fst _ _ ?_ entry).symm
    intro p
    by_cases hc : asciiLower p.1 = fnameLowerLit
    · rw [if_pos hc,
        if_pos (show (true = true ∧ asciiLower p.1 = fnameLowerLit) from ⟨rfl, hc⟩)]
      rfl
    · rw [if_neg hc,
        if_neg (show ¬(true = true ∧ asciiLower p.1 = fnameLowerLit) from
          fun hand => hc hand.2)]
      rfl
  · refine (filterMap_fst _ _ ?_ hs).symm
    intro h
    by_cases hc : asciiLower h = fnameLowerLit
    · rw [if_pos hc,
        if_pos (show (asciiLower h = fnameLowerLit ∧ true = true) from ⟨hc, rfl⟩)]
      rfl
    · rw [if_neg hc,
        if_neg (show ¬(asciiLower h = fnameLowerLit ∧ true = true) from
          fun hand => hc hand.1)]
      cases ha : entry.any (fun p => decide (p.1 = h)) with
      | true => simp
      | false => simp

theorem lookupPairs_mem (hs : List Str) (entry : Entry) (q : Str × Cond)
    (hq : q ∈ lookupPairs hs entry) :
    (∃ p ∈ entry, ¬(asciiLower p.1 = fnameLowerLit) ∧
      q = (condText p.1 p.2, (⟨asciiUpper p.1, true, tokOf p.2⟩ : Cond))) ∨
    (∃ h ∈ hs, ¬(asciiLower h = fnameLowerLit) ∧ (∀ p ∈ entry, ¬(p.1 = h)) ∧
      q = (asciiUpper h ++ isLit ++ nullLit, (⟨asciiUpper h, true, .tbare nullLit⟩ : Cond))) := by
  rcases List.mem_append.mp hq with hq1 | hq2
  · left
    obtain ⟨p, hp, heq⟩ := List.mem_filterMap.mp hq1
    by_cases hc : asciiLower p.1 = fnameLowerLit
    · rw [if_pos hc] at heq
      cases heq
    · rw [if_neg hc] at heq
      exact ⟨p, hp, hc, (Option.some.inj heq).symm⟩
  · right
    obtain ⟨h, hh, heq⟩ := List.mem_filterMap.mp hq2
    by_cases hc : asciiLower h = fnameLowerLit
    · rw [if_pos hc] at heq
      cases heq
    · rw [if_neg hc] at heq
      cases ha : entry.any (fun p => decide (p.1 = h)) with
      | true =>
        rw [if_pos (by rw [ha])] at heq
        cases heq
      | false =>
        rw [if_neg (by rw [ha]; exact Bool.false_ne_true)] at heq
        have habs : ∀ p ∈ entry, ¬(p.1 = h) := by
          intro p hp
          have := List.any_eq_false.mp ha p hp
          simpa using this
        exact ⟨h, hh, hc, habs, (Option.some.inj heq).symm⟩

/-! ## The engine on the built WHERE clause -/

theorem runWhere_pairs (db : DB) (l : List (Str × Cond))
    (hok : ∀ p ∈ l, condStrOk p.1 p.2) (hnn : ∀ p ∈ l, p.1 ≠ []) (hne : l ≠ [])
    (hres : ∀ p ∈ l, resolveCond db.headers p.2 = .ok (rcondOfCond db.headers p.2)) :
    runWhere db (l.map (fun p => p.1)) =
      .ok (db.rows.filter (fun r =>
        (l.map (fun p => rcondOfCond db.headers p.2)).all (evalRCond r))) := by
  have hmne : l.map (fun p => p.1) ≠ [] := by simpa using hne
  have hw : whereJoin (l.map (fun p => p.1)) =
      some (joinSep andLit (l.map (fun p => p.1))) := by
    simp [whereJoin, hmne]
  have hlen : l.length ≤ (joinSep andLit (l.map (fun p => p.1))).length + 1 := by
    have h2 := length_le_joinSep andLit (l.map (fun p => p.1)) (by
      intro s hs
      obtain ⟨p, hp, rfl⟩ := List.mem_map.mp hs
      exact hnn p hp)
    simpa using h2
  have hscan := scanConds_join l hok hne
    ((joinSep andLit (l.map (fun p => p.1))).length + 1) hlen
  have hmapm : (l.map (fun p => p.2)).mapM (resolveCond db.headers) =
      .ok ((l.map (fun p => p.2)).map (rcondOfCond db.headers)) := by
    apply mapM_ok
    intro c hc
    obtain ⟨p, hp, rfl⟩ := List.mem_map.mp hc
    exact hres p hp
  simp only [runWhere, hw, hscan, hmapm]
  rw [List.map_map]
  rfl

theorem lookupOp_pairs (db : DB) (entry : Entry) (HH : ValidHeaders db.headers)
    (HE : ValidEntry db.headers entry) (hne : lookupPairs db.headers entry ≠ []) :
    lookupOp db entry true true =
      .ok (db.rows.filter (fun r =>
        ((lookupPairs db.headers entry).map (fun p => rcondOfCond db.headers p.2)).all
          (evalRCond r))) := by
  rw [lookupOp, lookupConds_eq_pairs]
  apply runWhere_pairs db (lookupPairs db.headers entry) ?_ ?_ hne ?_
  · intro q hq
    rcases lookupPairs_mem db.headers entry q hq with ⟨p, hp, _, rfl⟩ | ⟨h, hh, _, _, rfl⟩
    · obtain ⟨hne2, hid⟩ := validColName_props p.1 (HH.1 p.1 (HE.1 p hp))
      exact condText_ok p.1 p.2 hne2 hid
    · obtain ⟨hne2, hid⟩ := validColName_props h (HH.1 h hh)
      exact condNull_ok h hne2 hid
  · intro q hq
    rcases lookupPairs_mem db.headers entry q hq with ⟨p, hp, _, rfl⟩ | ⟨h, hh, _, _, rfl⟩
    · obtain ⟨hne2, hid⟩ := validColName_props p.1 (HH.1 p.1 (HE.1 p hp))
      simp [condText]
      intro _ hisl
      exact absurd hisl (by decide)
    · obtain ⟨hne2, hid⟩ := validColName_props h (HH.1 h hh)
      simp
      intro _ hisl
      exact absurd hisl (by decide)
  · intro q hq
    rcases lookupPairs_mem db.headers entry q hq with ⟨p, hp, _, rfl⟩ | ⟨h, hh, _, _, rfl⟩
    · exact resolveCond_field db.headers HH p.1 p.2 (HE.1 p hp) (HE.2.2.1 p hp)
        (fun s hs => HE.2.2.2 p hp s hs)
    · exact resolveCond_null db.headers HH h hh

theorem lookupPairs_eval_entryRow (hs : List Str) (entry : Entry)
    (HH : ValidHeaders hs) (HE : ValidEntry hs entry) :
    ((lookupPairs hs entry).map (fun p => rcondOfCond hs p.2)).all
      (evalRCond (entryRow hs entry)) = true := by
  rw [List.all_eq_true]
  intro rc hrc
  obtain ⟨q, hq, rfl⟩ := List.mem_map.mp hrc
  rcases lookupPairs_mem hs entry q hq with ⟨p, hp, _, rfl⟩ | ⟨h, hh, _, habs, rfl⟩
  · rw [rcondOfCond_field hs p.1 p.2 (HE.2.2.1 p hp)]
    exact evalRCond_entryRow_field hs entry HH HE p.1 p.2 (by simpa using hp)
  · rw [rcondOfCond_null]
    exact evalRCond_entryRow_null hs entry HH HE h hh habs

/-! ## Round trip of the INSERT argument lists -/

theorem scanIdentList_join : ∀ l : List Str,
    (∀ s ∈ l, s ≠ [] ∧ ∀ c ∈ s, isIdentChar c = true) → l ≠ [] →
    ∀ fuel, l.length ≤ fuel → scanIdentList fuel (joinSep commaLit l) = some l := by
  intro l
  induction l with
  | nil => intro _ hne; exact absurd rfl hne
  | cons x rest ih =>
    intro hprops _ fuel hfuel
    cases fuel with
    | zero => simp at hfuel
    | succ fuel =>
      obtain ⟨hxne, hxid⟩ := hprops x (by simp)
      cases rest with
      | nil =>
        have h2 := takeWhile_all_append (l := x) (r := []) hxid trivial
        rw [List.append_nil] at h2
        simp [joinSep, scanIdentList, h2.1, h2.2, hxne]
      | cons y rest2 =>
        have hcomma : headFails isIdentChar (commaLit ++ joinSep commaLit (y :: rest2)) := by
          show isIdentChar ',' = false
          decide
        have h2 := takeWhile_all_append (l := x) hxid hcomma
        have hihyp := ih (fun s hs => hprops s (by simp [hs])) (by simp) fuel (by
          simp only [List.length_cons] at hfuel ⊢
          omega)
        have hnn : ¬(commaLit ++ joinSep commaLit (y :: rest2) = []) := by simp [commaLit]
        rw [show joinSep commaLit (x :: y :: rest2) =
            x ++ (commaLit ++ joinSep commaLit (y :: rest2)) from by
          rw [show joinSep commaLit (x :: y :: rest2) =
              x ++ commaLit ++ joinSep commaLit (y :: rest2) from rfl, List.append_assoc]]
        simp [scanIdentList, h2.1, h2.2, hxne, hnn, dropLit_self, hihyp]

theorem scanTokList_join : ∀ vl : List Value, vl ≠ [] →
    ∀ fuel, vl.length ≤ fuel →
    scanTokList fuel (joinSep commaLit (vl.map renderLit)) = some (vl.map tokOf) := by
  intro vl
  induction vl with
  | nil => intro hne; exact absurd rfl hne
  | cons v rest ih =>
    intro _ fuel hfuel
    cases fuel with
    | zero => simp at hfuel
    | succ fuel =>
      cases rest with
      | nil =>
        have h2 := scanTok_renderLit v [] trivial
        rw [List.append_nil] at h2
        simp [joinSep, scanTokList, h2]
      | cons w rest2 =>
        have hstop : stopOk (commaLit ++ joinSep commaLit ((w :: rest2).map renderLit)) :=
          Or.inr rfl
        have h2 := scanTok_renderLit v _ hstop
        have hihyp := ih (by simp) fuel (by
          simp only [List.length_cons] at hfuel ⊢
          omega)
        have hnn : ¬(commaLit ++ joinSep commaLit ((w :: rest2).map renderLit) = []) := by
          simp [commaLit]
        simp only [List.map_cons] at h2 hihyp hnn ⊢
        rw [show joinSep commaLit (renderLit v :: renderLit w :: List.map renderLit rest2) =
            renderLit v ++ (commaLit ++
              joinSep commaLit (renderLit w :: List.map renderLit rest2)) from by
          rw [show joinSep commaLit (renderLit v :: renderLit w :: List.map renderLit rest2) =
              renderLit v ++ commaLit ++
                joinSep commaLit (renderLit w :: List.map renderLit rest2) from rfl,
            List.append_assoc]]
        simp [scanTokList, h2, hnn, dropLit_self, hihyp]

theorem resolveValTok_tokOf (v : Value) (hvn : v ≠ .vnull) :
    resolveValTok (tokOf v) = .ok (some v) := by
  cases v with
  | vstr s => rfl
  | vint n => rfl
  | vnull => exact absurd rfl hvn

theorem renderLit_ne_nil (v : Value) : renderLit v ≠ [] := by
  cases v with
  | vstr s => simp [renderLit]
  | vint n =>
    simp only [renderLit, intRepr]
    by_cases hn : n < 0
    · simp [hn]
    · simp [hn, (natRepr_digits n.toNat).2.1]
  | vnull => simp [renderLit]

theorem insertRow_eq_entryRow (hs : List Str) (entry : Entry)
    (HH : ValidHeaders hs) (HE : ValidEntry hs entry) :
    (List.range hs.length).map (fun i =>
      (((entry.map (fun p => idxOf hs p.1)).zip (entry.map (fun p => some p.2))).find?
        (fun q => q.1 == i)).bind (fun q => q.2)) = entryRow hs entry := by
  simp only [List.zip_map']
  unfold entryRow
  apply List.ext
  intro i
  rw [List.get?_map, List.get?_map]
  by_cases hi : i < hs.length
  · rw [List.get?_range hi]
    obtain ⟨h, hget⟩ : ∃ h, hs.get? i = some h := by
      rw [List.get?_eq_get hi]
      exact ⟨hs.get ⟨i, hi⟩, rfl⟩
    rw [hget]
    simp only [Option.map_some']
    congr 1
    rw [List.find?_map]
    have hcongr : entry.find? ((fun q => q.1 == i) ∘ (fun p => (idxOf hs p.1, some p.2))) =
        entry.find? (fun p => asciiUpper p.1 == asciiUpper h) := by
      apply find?_congr_mem
      intro p hp
      show (idxOf hs p.1 == i) = (asciiUpper p.1 == asciiUpper h)
      obtain ⟨hcol, hgetp⟩ := idxOf_spec hs HH.2 p.1
        (validColName_props p.1 (HH.1 p.1 (HE.1 p hp))).2 (HE.1 p hp)
      have hhmem : h ∈ hs := List.get?_mem hget
      have hiff : (idxOf hs p.1 = i) ↔ (asciiUpper p.1 = asciiUpper h) := by
        constructor
        · intro he
          rw [he, hget] at hgetp
          injection hgetp with h2
          rw [h2]
        · intro he
          have hph : p.1 = h := nodupUpper_eq_of_mem hs HH.2 (HE.1 p hp) hhmem he
          have hcoli : colIdx? hs (asciiUpper h) = some i :=
            colIdx?_get_unique hs HH.2 i h (asciiUpper h) hget
              (asciiUpper_idem h (validColName_props h (HH.1 h hhmem)).2).symm
          rw [hph]
          simp [idxOf, hcoli]
      by_cases h1 : idxOf hs p.1 = i
      · have h2 := hiff.mp h1
        simp [h1, h2]
      · have h2 : ¬(asciiUpper p.1 = asciiUpper h) := fun he => h1 (hiff.mpr he)
        simp [h1, h2]
    rw [hcongr]
    cases hf : entry.find? (fun p => asciiUpper p.1 == asciiUpper h) with
    | none => simp [hf]
    | some p => simp [hf]
  · have h1 : (List.range hs.length).get? i = none := by
      rw [List.get?_eq_none]
      simpa using not_lt.mp hi
    have h2 : hs.get? i = none := by
      rw [List.get?_eq_none]
      exact not_lt.mp hi
    rw [h1, h2]
    rfl

theorem except_ok_bind {α β : Type} (a : α) (k : α → Except Err β) :
    (Except.ok a >>= k) = k a := rfl

theorem except_map_ok {α β : Type} (f : α → β) (a : α) :
    (Except.map f (Except.ok a) : Except Err β) = .ok (f a) := rfl

theorem insertOp_entry (db : DB) (entry : Entry) (HH : ValidHeaders db.headers)
    (HE : ValidEntry db.headers entry) (hne : entry ≠ []) :
    insertOp db (joinSep commaLit (entry.map (fun p => asciiUpper p.1)))
      (joinSep commaLit (entry.map (fun p => renderLit p.2))) =
    .ok { db with rows := db.rows ++ [entryRow db.headers entry] } := by
  have hprops : ∀ s ∈ entry.map (fun p => asciiUpper p.1),
      s ≠ [] ∧ ∀ c ∈ s, isIdentChar c = true := by
    intro s hsm
    obtain ⟨p, hp, rfl⟩ := List.mem_map.mp hsm
    obtain ⟨hn, hid⟩ := validColName_props p.1 (HH.1 p.1 (HE.1 p hp))
    exact ⟨by simpa [asciiUpper] using hn, asciiUpper_ident p.1 hid⟩
  have hmne : entry.map (fun p => asciiUpper p.1) ≠ [] := by simpa using hne
  have hfs := scanIdentList_join (entry.map (fun p => asciiUpper p.1)) hprops hmne
    ((joinSep commaLit (entry.map (fun p => asciiUpper p.1))).length + 1)
    (length_le_joinSep commaLit _ (fun s hs => (hprops s hs).1))
  have hvmap : entry.map (fun p => renderLit p.2) =
      (entry.map (fun p => p.2)).map renderLit := by
    rw [List.map_map]
    rfl
  have hvne : entry.map (fun p => p.2) ≠ [] := by simpa using hne
  have hvlen : (entry.map (fun p => p.2)).length ≤
      (joinSep commaLit ((entry.map (fun p => p.2)).map renderLit)).length + 1 := by
    have h2 := length_le_joinSep commaLit ((entry.map (fun p => p.2)).map renderLit) (by
      intro s hsm
      obtain ⟨v, _, rfl⟩ := List.mem_map.mp hsm
      exact renderLit_ne_nil v)
    simpa using h2
  have hts := scanTokList_join (entry.map (fun p => p.2)) hvne
    ((joinSep commaLit ((entry.map (fun p => p.2)).map renderLit)).length + 1) hvlen
  have hidxm : (entry.map (fun p => asciiUpper p.1)).mapM (fun f =>
      match colIdx? db.headers f with
      | some i => Except.ok i
      | none => Except.error Err.operationalErr) =
      .ok (entry.map (fun p => idxOf db.headers p.1)) := by
    rw [show entry.map (fun p => idxOf db.headers p.1) =
        (entry.map (fun p => asciiUpper p.1)).map
          (fun f => (colIdx? db.headers f).getD 0) from by
      rw [List.map_map]
      rfl]
    apply mapM_ok
    intro a ha
    obtain ⟨p, hp, rfl⟩ := List.mem_map.mp ha
    obtain ⟨hcol, _⟩ := idxOf_spec db.headers HH.2 p.1
      (validColName_props p.1 (HH.1 p.1 (HE.1 p hp))).2 (HE.1 p hp)
    rw [hcol]
    rfl
  have hnodup : (entry.map (fun p => idxOf db.headers p.1)).Nodup := by
    rw [show entry.map (fun p => idxOf db.headers p.1) =
        (entry.map (fun p => p.1)).map (idxOf db.headers) from by
      rw [List.map_map]
      rfl]
    apply List.Nodup.map_on
    · intro x hx y hy hxy
      obtain ⟨px, hpx, rfl⟩ := List.mem_map.mp hx
      obtain ⟨py, hpy, rfl⟩ := List.mem_map.mp hy
      obtain ⟨_, hgx⟩ := idxOf_spec db.headers HH.2 px.1
        (validColName_props px.1 (HH.1 px.1 (HE.1 px hpx))).2 (HE.1 px hpx)
      obtain ⟨_, hgy⟩ := idxOf_spec db.headers HH.2 py.1
        (validColName_props py.1 (HH.1 py.1 (HE.1 py hpy))).2 (HE.1 py hpy)
      rw [hxy] at hgx
      rw [hgx] at hgy
      injection hgy
    · exact nodupUpper_nodup _ HE.2.1
  have hvalm : ((entry.map (fun p => p.2)).map tokOf).mapM resolveValTok =
      .ok (entry.map (fun p => some p.2)) := by
    rw [show entry.map (fun p => some (p.2 : Value)) =
        ((entry.map (fun p => p.2)).map tokOf).map (fun t =>
          match t with
          | .tquoted s => some (Value.vstr s)
          | .tint n => some (Value.vint n)
          | .tbare _ => none) from by
      rw [List.map_map, List.map_map]
      apply List.map_congr_left
      intro p hp
      have hvn2 := HE.2.2.1 p hp
      simp only [Function.comp_apply]
      cases hv : p.2 with
      | vstr s => rfl
      | vint n => rfl
      | vnull => exact absurd hv hvn2]
    apply mapM_ok
    intro t ht
    obtain ⟨v, hv, rfl⟩ := List.mem_map.mp ht
    obtain ⟨p, hp, rfl⟩ := List.mem_map.mp hv
    have hvn := HE.2.2.1 p hp
    cases hv2 : p.2 with
    | vstr s => rfl
    | vint n => rfl
    | vnull => exact absurd hv2 hvn
  rw [hvmap]
  simp only [insertOp, hfs, hts]
  rw [if_neg (by simp)]
  simp only [hidxm]
  rw [except_ok_bind, if_pos hnodup, hvalm, except_ok_bind,
    insertRow_eq_entryRow db.headers entry HH HE]

/-! ## The add / lookup round trip -/

theorem addOp_roundtrip (db : DB) (entry : Entry)
    (HH : ValidHeaders db.headers) (HE : ValidEntry db.headers entry) (hne : entry ≠ [])
    (hEmpty : lookupOp db entry true true = .ok []) :
    addOp db entry =
      ({ db with rows := db.rows ++ [entryRow db.headers entry] }, .ok true) ∧
    lookupOp { db with rows := db.rows ++ [entryRow db.headers entry] } entry true true =
      .ok [entryRow db.headers entry] := by
  have hins := insertOp_entry db entry HH HE hne
  have hadd : addOp db entry =
      ({ db with rows := db.rows ++ [entryRow db.headers entry] }, .ok true) := by
    simp only [addOp, hEmpty, List.length_nil, hins]
    simp
  refine ⟨hadd, ?_⟩
  by_cases hpne : lookupPairs db.headers entry = []
  · have hconds : lookupConds db.headers entry true true = [] := by
      rw [lookupConds_eq_pairs, hpne]
      rfl
    have hrows : db.rows = [] := by
      have h2 := hEmpty
      rw [lookupOp, hconds] at h2
      simpa [runWhere, whereJoin] using h2
    rw [lookupOp]
    rw [show ({ db with rows := db.rows ++ [entryRow db.headers entry] } : DB).headers =
        db.headers from rfl, hconds]
    simp [runWhere, whereJoin, hrows]
  · have hlk := lookupOp_pairs db entry HH HE hpne
    have hfil : db.rows.filter (fun r =>
        ((lookupPairs db.headers entry).map (fun p => rcondOfCond db.headers p.2)).all
          (evalRCond r)) = [] := by
      rw [hlk] at hEmpty
      exact Except.ok.inj hEmpty
    have hlk' := lookupOp_pairs { db with rows := db.rows ++ [entryRow db.headers entry] }
      entry HH HE hpne
    rw [hlk']
    rw [show ({ db with rows := db.rows ++ [entryRow db.headers entry] } : DB).rows =
        db.rows ++ [entryRow db.headers entry] from rfl, List.filter_append, hfil]
    simp [lookupPairs_eval_entryRow db.headers entry HH HE]

/-! ## The prune loop -/

theorem any_congr_mem {α} (p q : α → Bool) : ∀ l : List α,
    (∀ a ∈ l, p a = q a) → l.any p = l.any q := by
  intro l
  induction l with
  | nil => intro _; rfl
  | cons a t ih =>
    intro h
    simp only [List.any_cons, h a (by simp), ih (fun x hx => h x (by simp [hx]))]

theorem any_map_beta {α β : Type} (f : α → β) (p : β → Bool) (l : List α) :
    (l.map f).any p = l.any (fun a => p (f a)) := by
  induction l with
  | nil => rfl
  | cons a t ih => simp only [List.map_cons, List.any_cons, ih]

theorem deleteOp_prune (db : DB) (i : Nat)
    (hfn : colIdx? db.headers fnameUpperLit = some i)
    (d : Str) (hq : ∀ c ∈ d, c ≠ '"') (hnc : colIdx? db.headers d = none) :
    deleteOp db (fnameUpperLit ++ eqLit ++ ('"' :: (d ++ ['"']))) =
      .ok { db with
        rows := db.rows.filter (fun r => !(rowGet r i == some (Value.vstr d))) } := by
  have hcond := condStrOk_prune d hq [] trivial
  rw [List.append_nil] at hcond
  have hcond2 : scanCond (fnameUpperLit ++ (eqLit ++ '"' :: (d ++ ['"']))) =
      some (⟨fnameUpperLit, false, .tquoted d⟩, []) := by
    rw [← List.append_assoc]
    exact hcond
  have hscan : ∀ fuel, scanConds (fuel + 1)
      (fnameUpperLit ++ eqLit ++ ('"' :: (d ++ ['"']))) =
      some [⟨fnameUpperLit, false, .tquoted d⟩] := by
    intro fuel
    simp [scanConds, hcond2]
  have hres : resolveCond db.headers ⟨fnameUpperLit, false, .tquoted d⟩ =
      .ok ⟨i, false, .lit (some (.vstr d))⟩ := by
    simp only [resolveCond, hfn]
    simp [resolveCondTok, hnc]
    rfl
  have hmapm : [(⟨fnameUpperLit, false, .tquoted d⟩ : Cond)].mapM (resolveCond db.headers) =
      .ok [(⟨i, false, .lit (some (.vstr d))⟩ : RCond)] := by
    rw [List.mapM_cons, hres]
    rfl
  simp only [deleteOp, hscan, hmapm]
  rw [except_map_ok]
  congr 1
  show { db with rows := db.rows.filter (fun r =>
      !(([(⟨i, false, .lit (some (.vstr d))⟩ : RCond)]).all (evalRCond r))) } =
    { db with rows := db.rows.filter (fun r => !(rowGet r i == some (Value.vstr d))) }
  congr 1
  apply List.filter_congr
  intro r _
  simp only [List.all_cons, List.all_nil, Bool.and_true]
  simp only [evalRCond, evalRVal]
  cases hg : rowGet r i with
  | none => simp
  | some a =>
    cases a with
    | vstr s =>
      by_cases hsd : s = d
      · subst hsd
        simp
      · simp [hsd]
    | vint n => simp
    | vnull => simp

theorem pruneLoop_spec (fs : List Str) (i : Nat) :
    ∀ (ds : List Str) (db : DB) (flag : Bool),
    colIdx? db.headers fnameUpperLit = some i →
    (∀ d ∈ ds, (∀ c ∈ d, c ≠ '"') ∧ colIdx? db.headers d = none) →
    pruneLoop fs ds db flag =
      ({ db with
          rows := db.rows.filter (fun r =>
            !(ds.any (fun d => !(fs.contains d) && (rowGet r i == some (Value.vstr d))))) },
        .ok (flag || ds.any (fun d => !(fs.contains d)))) := by
  intro ds
  induction ds with
  | nil =>
    intro db flag _ _
    simp [pruneLoop]
  | cons d rest ih =>
    intro db flag hfn hprops
    obtain ⟨hq, hnc⟩ := hprops d (by simp)
    cases hct : fs.contains d with
    | true =>
      have hstep : pruneLoop fs (d :: rest) db flag = pruneLoop fs rest db flag := by
        simp only [pruneLoop]
        rw [if_pos hct]
      rw [hstep, ih db flag hfn (fun x hx => hprops x (by simp [hx]))]
      simp only [Prod.mk.injEq]
      refine ⟨?_, ?_⟩
      · congr 1
        apply List.filter_congr
        intro r _
        rw [List.any_cons, hct]
        simp
      · rw [List.any_cons, hct]
        simp
    | false =>
      have hstep : pruneLoop fs (d :: rest) db flag =
          pruneLoop fs rest
            { db with
              rows := db.rows.filter (fun r => !(rowGet r i == some (Value.vstr d))) }
            true := by
        simp only [pruneLoop]
        rw [if_neg (by rw [hct]; exact Bool.false_ne_true),
          deleteOp_prune db i hfn d hq hnc]
      rw [hstep, ih { db with
          rows := db.rows.filter (fun r => !(rowGet r i == some (Value.vstr d))) } true
        hfn (fun x hx => hprops x (by simp [hx]))]
      simp only [Prod.mk.injEq]
      refine ⟨?_, ?_⟩
      · congr 1
        rw [List.filter_filter]
        apply List.filter_congr
        intro r _
        rw [List.any_cons, hct]
        cases hm : (rowGet r i == some (Value.vstr d)) <;> simp [hm]
      · rw [List.any_cons, hct]
        simp

theorem pruneOp_spec (fs : List Str) (db : DB) (i : Nat)
    (hfn : colIdx? db.headers fnameUpperLit = some i)
    (hrows : ∀ r ∈ db.rows, ∃ s, rowGet r i = some (Value.vstr s) ∧ normpath s = s ∧
      (∀ c ∈ s, c ≠ '"') ∧ colIdx? db.headers s = none) :
    pruneOp fs db =
      ({ db with
          rows := db.rows.filter (fun r =>
            match rowGet r i with
            | some (.vstr s) => fs.contains s
            | _ => false) },
        .ok (db.rows.any (fun r =>
          match rowGet r i with
          | some (.vstr s) => !(fs.contains s)
          | _ => false))) := by
  have hsearch : searchOp db = .ok (db.rows.map (fun r =>
      match rowGet r i with
      | some (.vstr s) => s
      | _ => [])) := by
    simp only [searchOp, hfn]
    apply mapM_ok
    intro r hr
    obtain ⟨s, hg, hnp, _, _⟩ := hrows r hr
    rw [hg]
    show Except.ok (normpath s) = Except.ok s
    rw [hnp]
  have hds : ∀ d ∈ db.rows.map (fun r =>
      match rowGet r i with
      | some (.vstr s) => s
      | _ => []),
      (∀ c ∈ d, c ≠ '"') ∧ colIdx? db.headers d = none := by
    intro d hd
    obtain ⟨r, hr, rfl⟩ := List.mem_map.mp hd
    obtain ⟨s, hg, _, hq2, hnc2⟩ := hrows r hr
    rw [hg]
    exact ⟨hq2, hnc2⟩
  have hred : pruneOp fs db = pruneLoop fs (db.rows.map (fun r =>
      match rowGet r i with
      | some (.vstr s) => s
      | _ => [])) db false := by
    unfold pruneOp
    rw [hsearch]
  rw [hred, pruneLoop_spec fs i _ db false hfn hds]
  simp only [Prod.mk.injEq]
  refine ⟨?_, ?_⟩
  · congr 1
    apply List.filter_congr
    intro r hr
    obtain ⟨s, hg, _, _, hnc2⟩ := hrows r hr
    rw [hg]
    cases hct : fs.contains s with
    | true =>
      simp only [hct]
      rw [List.any_eq_false.mpr ?_]
      · rfl
      · intro d hd
        obtain ⟨r2, hr2, rfl⟩ := List.mem_map.mp hd
        simp only [Bool.and_eq_true, Bool.not_eq_true', beq_iff_eq]
        rintro ⟨hcf, hbeq⟩
        injection hbeq with h3
        injection h3 with h4
        rw [h4] at hct
        rw [hct] at hcf
        cases hcf
    | false =>
      simp only [hct]
      rw [List.any_eq_true.mpr ?_]
      · rfl
      · refine ⟨s, List.mem_map.mpr ⟨r, hr, by rw [hg]⟩, ?_⟩
        simp [hg]
        simpa using hct
  · congr 1
    simp only [Bool.false_or]
    rw [any_map_beta]
    apply any_congr_mem
    intro r hr
    obtain ⟨s, hg, _, _, _⟩ := hrows r hr
    rw [hg]

/-! ## `hash_directory` stream facts -/

theorem assocSet_ne_nil (l : Entry) (k : Str) (v : Value) : assocSet l k v ≠ [] := by
  unfold assocSet
  split
  · next h =>
    cases l with
    | nil => simp at h
    | cons a t => simp
  · simp

theorem filesStream_eq_flat (p : List Str) (fs : List (Str × List Nat)) :
    filesStream p fs = (filePairs p fs).flatMap (fun q => q.1 ++ q.2) := by
  induction fs with
  | nil => rfl
  | cons f t ih =>
    simp only [filesStream, filePairs, List.map_cons, List.flatMap_cons] at *
    rw [ih]

mutual

theorem hdStream_eq_walk : ∀ (p : List Str) (t : FTree),
    hdStream p t = (walkT p t).flatMap visitOnce
  | p, .node fs ds => by
    rw [hdStream, walkT, List.flatMap_cons, visitOnce, subdirsStream_eq_walkTL p ds]

theorem subdirsStream_eq_walkTL : ∀ (p : List Str) (ds : List (Str × FTree)),
    subdirsStream p ds = (walkTL p ds).flatMap visitOnce
  | _, [] => rfl
  | p, d :: rest => by
    rw [subdirsStream, walkTL, List.flatMap_append, hdStream_eq_walk (p ++ [d.1]) d.2,
      subdirsStream_eq_walkTL p rest]

end

mutual

theorem hdStream_eq_flat : ∀ (p : List Str) (t : FTree),
    hdStream p t = (visitSeq p t).flatMap (fun q => q.1 ++ q.2)
  | p, .node fs ds => by
    rw [hdStream, visitSeq, List.flatMap_append, List.flatMap_append,
      subdirsStream_eq_flat p ds, filesStream_eq_flat p fs]

theorem subdirsStream_eq_flat : ∀ (p : List Str) (ds : List (Str × FTree)),
    subdirsStream p ds = (visitSeqL p ds).flatMap (fun q => q.1 ++ q.2)
  | _, [] => rfl
  | p, d :: rest => by
    rw [subdirsStream, visitSeqL, List.flatMap_append, hdStream_eq_flat (p ++ [d.1]) d.2,
      subdirsStream_eq_flat p rest]

end

mutual

theorem wrk_snd : ∀ (c : Str) (p : List Str) (t : FTree), (wrk c p t).2 = hdStream p t
  | c, p, .node fs ds => by
    show filesStream p fs ++ (wrkL c p ds).2 ++ (wrkL (wrkL c p ds).1 p ds).2 =
      hdStream p (.node fs ds)
    rw [hdStream, wrkL_snd c p ds, wrkL_snd (wrkL c p ds).1 p ds]

theorem wrkL_snd : ∀ (c : Str) (p : List Str) (ds : List (Str × FTree)),
    (wrkL c p ds).2 = subdirsStream p ds
  | _, _, [] => rfl
  | c, p, d :: rest => by
    show (wrk c (p ++ [d.1]) d.2).2 ++ (wrkL (wrk c (p ++ [d.1]) d.2).1 p rest).2 =
      subdirsStream p (d :: rest)
    rw [subdirsStream, wrk_snd c (p ++ [d.1]) d.2,
      wrkL_snd (wrk c (p ++ [d.1]) d.2).1 p rest]

end

/-! ## The claims -/

/-- C1: counterexample. The quotes of an embedded-quote value are
doubled by `sql_escape`, but under SQLite's double-quote misfeature a
quoted literal that spells a column name resolves as that column:
here the value `"b"` of field `a` is read as column `b`, so this
entry — which carries the embedded-quote value `5" pipe` — is
inserted (`add` reports true) yet the identical `lookup` immediately
afterwards returns no rows at all. -/
theorem C1_counterexample :
    entryAB.any (fun p => match p.2 with
      | Value.vstr s => s.contains '"'
      | _ => false) = true ∧
    (addOp ⟨hsABF, []⟩ entryAB).2 = .ok true ∧
    lookupOp (addOp ⟨hsABF, []⟩ entryAB).1 entryAB true true = .ok [] := by decide

/-- C1 (amended): for an entry none of whose string values spells a
column name (and whose keys are schema columns, pairwise distinct up
to case, with no `None` values), a value with embedded double quotes
does not alter the query structure: `add` appends exactly the entry's
row and reports true, and the identical `lookup` then returns exactly
that row. -/
theorem C1_escaped_roundtrip (db : DB) (entry : Entry)
    (HH : ValidHeaders db.headers) (HE : ValidEntry db.headers entry) (hne : entry ≠ [])
    (hq : entry.any (fun p => match p.2 with
      | Value.vstr s => s.contains '"'
      | _ => false) = true)
    (hEmpty : lookupOp db entry true true = .ok []) :
    addOp db entry =
      ({ db with rows := db.rows ++ [entryRow db.headers entry] }, .ok true) ∧
    lookupOp { db with rows := db.rows ++ [entryRow db.headers entry] } entry true true =
      .ok [entryRow db.headers entry] :=
  addOp_roundtrip db entry HH HE hne hEmpty

/-- C1 witness: the spec's own example, `{"label": "5\" pipe"}` on a
label/filename schema. -/
theorem C1_witness :
    (([(("label".data), Value.vstr ("5\" pipe".data))] : Entry)).any (fun p =>
      match p.2 with
      | Value.vstr s => s.contains '"'
      | _ => false) = true ∧
    addOp ⟨hsLF, []⟩ [(("label".data), Value.vstr ("5\" pipe".data))] =
      ({ headers := hsLF,
         rows := [entryRow hsLF [(("label".data), Value.vstr ("5\" pipe".data))]] },
       .ok true) := by
  have HE : ValidEntry hsLF [(("label".data), Value.vstr ("5\" pipe".data))] := by
    refine ⟨by decide, by decide, by decide, ?_⟩
    intro p hp s hs
    simp only [List.mem_singleton] at hp
    subst hp
    injection hs with h
    subst h
    decide
  exact ⟨by decide,
    (C1_escaped_roundtrip ⟨hsLF, []⟩ _ ⟨by decide, by decide⟩ HE (by decide) (by decide)
      (by decide)).1⟩

/-- C3: counterexample. The entry `{"label": None}` has all its fields
in the schema, but its value renders as the bare token `None`, which
the engine reads as neither `NULL` nor a known column: `lookup` — and
with it `add` — raises `OperationalError`, and nothing is inserted,
instead of the claimed one-row round trip. -/
theorem C3_counterexample :
    lookupOp ⟨hsLF, []⟩ [(("label".data), Value.vnull)] true true =
      .error .operationalErr ∧
    (addOp ⟨hsLF, []⟩ [(("label".data), Value.vnull)]).2 = .error .operationalErr ∧
    (addOp ⟨hsLF, []⟩ [(("label".data), Value.vnull)]).1.rows = [] := by decide

/-- C3 (amended): for an entry whose fields are schema columns,
pairwise distinct up to case, with no `None` value and no string value
spelling a column name, and which is not already present: `add`
appends exactly the entry's row (reporting true) and the identical
`lookup` then returns exactly that row. -/
theorem C3_add_lookup_roundtrip (db : DB) (entry : Entry)
    (HH : ValidHeaders db.headers) (HE : ValidEntry db.headers entry) (hne : entry ≠ [])
    (hEmpty : lookupOp db entry true true = .ok []) :
    addOp db entry =
      ({ db with rows := db.rows ++ [entryRow db.headers entry] }, .ok true) ∧
    lookupOp { db with rows := db.rows ++ [entryRow db.headers entry] } entry true true =
      .ok [entryRow db.headers entry] :=
  addOp_roundtrip db entry HH HE hne hEmpty

/-- C3 witness: the numeric example `{"temperature": 300,
"pressure": 101}` on a temperature/pressure/filename schema. -/
theorem C3_witness :
    lookupOp ⟨hsTPF, []⟩ entryTP true true = .ok [] ∧
    addOp ⟨hsTPF, []⟩ entryTP =
      ({ headers := hsTPF, rows := [entryRow hsTPF entryTP] }, .ok true) ∧
    lookupOp { headers := hsTPF, rows := [entryRow hsTPF entryTP] } entryTP true true =
      .ok [entryRow hsTPF entryTP] := by
  have HE : ValidEntry hsTPF entryTP := by
    refine ⟨by decide, by decide, by decide, ?_⟩
    intro p hp s hs
    simp only [entryTP, List.mem_cons, List.mem_singleton] at hp
    rcases hp with rfl | rfl | hp
    · simp at hs
    · simp at hs
    · simp at hp
  have h := C3_add_lookup_roundtrip ⟨hsTPF, []⟩ entryTP ⟨by decide, by decide⟩ HE
    (by decide) (by decide)
  exact ⟨by decide, h.1, h.2⟩

/-- C6: the claim's code path is a bug. When the marker file parses to
an empty mapping, the `raise` statement formats its message with the
name `param_filepath`, which is never defined (the variable in scope
is `param_file`): Python raises `NameError` there, not the documented
configuration error. No row is inserted either way. -/
theorem C6_empty_params_nameError (db : DB) (d : Str) :
    add_dirOp ⟨true, true, true, []⟩ db d = (db, .error .nameErr) := rfl

/-- C10: a completed top-level `hash_directory` call restores the
process working directory: the function saves `os.getcwd()`, chdirs
into the root to hash, and chdirs back to the saved directory, so the
final working directory equals the initial one. -/
theorem C10_cwd_restored (cwd root : Str) (t : FTree) :
    (hash_directory_run cwd root t).1 = cwd := rfl

/-- C2: counterexample. The packaged implementation performs no
lower-casing at schema-creation time: creating a fresh library from
the schema `{"Temp": "x"}` stores the column list `[Temp, filename]`
in its original case, which differs from its lower-cased form. -/
theorem C2_counterexample :
    ((create_libraryOp (fun _ => ⟨false, false, false, []⟩) none
        [(("Temp".data), ['x'])] false).1.map DB.headers) =
      some [("Temp".data), ("filename".data)] ∧
    (create_libraryOp (fun _ => ⟨false, false, false, []⟩) none
        [(("Temp".data), ['x'])] false).2 = .ok none ∧
    [("Temp".data), ("filename".data)] ≠
      ([("Temp".data), ("filename".data)]).map asciiLower := by decide

/-- C2 (amended): creating a library on a fresh store from a non-empty
schema of plain, case-insensitively distinct column names succeeds and
stores exactly the schema's keys with `filename` appended when absent,
in their original case and order; no lower-casing occurs. -/
theorem C2_fresh_create_columns (fd : Str → DirInfo) (schema : List (Str × Str))
    (hne : schema ≠ [])
    (hv : ((addFilenameDefault schema).map (fun p => p.1)).all validColName = true)
    (hnd : nodupUpper ((addFilenameDefault schema).map (fun p => p.1)) = true) :
    create_libraryOp fd none schema false =
      (some ⟨(addFilenameDefault schema).map (fun p => p.1), []⟩, .ok none) := by
  have hlen : ¬ schema.length = 0 := by
    cases schema with
    | nil => exact absurd rfl hne
    | cons a t => simp
  have hct : createTables (addFilenameDefault schema) =
      .ok ((addFilenameDefault schema).map (fun p => p.1)) := by
    simp [createTables, hv, hnd]
  simp only [create_libraryOp]
  rw [if_neg hlen, hct]

/-- C2 witness: a temperature/pressure schema without `filename`. -/
theorem C2_witness :
    ([(("temperature".data), ("T".data)), (("pressure".data), ("P".data))] :
      List (Str × Str)) ≠ [] ∧
    create_libraryOp (fun _ => ⟨false, false, false, []⟩) none
        [(("temperature".data), ("T".data)), (("pressure".data), ("P".data))] false =
      (some ⟨[("temperature".data), ("pressure".data), ("filename".data)], []⟩,
       .ok none) := by
  refine ⟨by decide, ?_⟩
  exact C2_fresh_create_columns (fun _ => ⟨false, false, false, []⟩)
    [(("temperature".data), ("T".data)), (("pressure".data), ("P".data))]
    (by decide) (by decide) (by decide)

/-- C7: counterexample. With an existing catalog of columns
`[a, filename]` and the differing schema `{"b": "x"}`, `create_library`
with `force = false` raises no error at all: it drops and recreates
the catalog with the new columns and returns `ok` (the catalog held no
directories to re-add). -/
theorem C7_counterexample :
    (create_libraryOp (fun _ => ⟨false, false, false, []⟩)
        (some ⟨[['a'], ("filename".data)], []⟩) [(['b'], ['x'])] false).2 = .ok none ∧
    ((create_libraryOp (fun _ => ⟨false, false, false, []⟩)
        (some ⟨[['a'], ("filename".data)], []⟩) [(['b'], ['x'])] false).1.map DB.headers) =
      some [['b'], ("filename".data)] := by decide

/-- C7 (amended): when the catalog exists with a FILENAME column and
no rows, and its columns differ from the (valid, non-empty) new
schema's, `create_library` without `force` does not fail with a
schema-conflict error: it migrates, recreating the catalog with the
new columns and returning `ok` with no invalid directories. -/
theorem C7_migrates_without_error (fd : Str → DirInfo) (db : DB)
    (schema : List (Str × Str)) (i : Nat)
    (hrows : db.rows = [])
    (hfn : colIdx? db.headers fnameUpperLit = some i)
    (hdiff : db.headers ≠ (addFilenameDefault schema).map (fun p => p.1))
    (hne : schema ≠ [])
    (hv : ((addFilenameDefault schema).map (fun p => p.1)).all validColName = true)
    (hnd : nodupUpper ((addFilenameDefault schema).map (fun p => p.1)) = true) :
    create_libraryOp fd (some db) schema false =
      (some ⟨(addFilenameDefault schema).map (fun p => p.1), []⟩, .ok none) := by
  have hlen : ¬ schema.length = 0 := by
    cases schema with
    | nil => exact absurd rfl hne
    | cons a t => simp
  have hsearch : searchOp db = .ok [] := by
    unfold searchOp
    rw [hfn, hrows]
    rfl
  have hct : createTables (addFilenameDefault schema) =
      .ok ((addFilenameDefault schema).map (fun p => p.1)) := by
    simp [createTables, hv, hnd]
  simp only [create_libraryOp]
  rw [if_neg hlen, if_pos (Or.inl hdiff), hsearch, hct]
  rfl

/-- C7 witness: the counterexample's catalog and schema, through the
amended statement. -/
theorem C7_witness :
    ([['a'], ("filename".data)] ≠
      ((addFilenameDefault [(['b'], ['x'])]).map (fun p => p.1))) ∧
    create_libraryOp (fun _ => ⟨false, false, false, []⟩)
        (some ⟨[['a'], ("filename".data)], []⟩) [(['b'], ['x'])] false =
      (some ⟨[['b'], ("filename".data)], []⟩, .ok none) := by
  refine ⟨by decide, ?_⟩
  exact C7_migrates_without_error (fun _ => ⟨false, false, false, []⟩)
    ⟨[['a'], ("filename".data)], []⟩ [(['b'], ['x'])] 1 rfl (by decide) (by decide)
    (by decide) (by decide) (by decide)

/-- C4: counterexample. Directory `exp1` with marker `{"a": "b"}` on
catalog columns `[a, b, filename]`, unchanged between the calls: the
lookup inside `add` reads the quoted value `"b"` as column `b`
(SQLite's double-quote misfeature), so it never finds the row just
inserted — `add_dir` returns `(true, true)` both times and the row is
duplicated. -/
theorem C4_counterexample :
    (add_dirOp infoA ⟨hsABF, []⟩ ("exp1".data)).2 = .ok (true, true) ∧
    (add_dirOp infoA (add_dirOp infoA ⟨hsABF, []⟩ ("exp1".data)).1 ("exp1".data)).2 =
      .ok (true, true) ∧
    (add_dirOp infoA
      (add_dirOp infoA ⟨hsABF, []⟩ ("exp1".data)).1 ("exp1".data)).1.rows.length = 2 := by
  decide

/-- C4 (amended): for a present directory whose marker parses to a
non-empty mapping, when the entry it induces (the parameters with
`filename` set to the normalized path) satisfies the engine's
preconditions and is not yet present, `add_dir` returns `(true, true)`
and appends exactly one row, and the identical second call returns
`(true, false)` leaving the catalog unchanged. -/
theorem C4_add_dir_idempotent (info : DirInfo) (db : DB) (d : Str)
    (hp : info.present = true) (hd : info.isdir = true) (hm : info.hasParams = true)
    (hnp : info.params ≠ [])
    (HH : ValidHeaders db.headers)
    (HE : ValidEntry db.headers (assocSet info.params fnameLowerLit (.vstr (normpath d))))
    (hEmpty : lookupOp db (assocSet info.params fnameLowerLit (.vstr (normpath d)))
      true true = .ok []) :
    add_dirOp info db d =
      ({ db with rows := db.rows ++
          [entryRow db.headers (assocSet info.params fnameLowerLit (.vstr (normpath d)))] },
        .ok (true, true)) ∧
    add_dirOp info
        { db with rows := db.rows ++
          [entryRow db.headers (assocSet info.params fnameLowerLit (.vstr (normpath d)))] } d =
      ({ db with rows := db.rows ++
          [entryRow db.headers (assocSet info.params fnameLowerLit (.vstr (normpath d)))] },
        .ok (true, false)) := by
  have hne : assocSet info.params fnameLowerLit (.vstr (normpath d)) ≠ [] :=
    assocSet_ne_nil info.params fnameLowerLit (.vstr (normpath d))
  obtain ⟨h1, h2⟩ := addOp_roundtrip db _ HH HE hne hEmpty
  have hparams : info.params.length ≠ 0 := by
    cases hp2 : info.params with
    | nil => exact absurd hp2 hnp
    | cons a t => simp [hp2]
  refine ⟨?_, ?_⟩
  · unfold add_dirOp
    rw [if_neg (by simp [hp]), if_neg (by simp [hd]), if_neg (by simp [hm]),
      if_pos hparams, h1]
  · have haddF : addOp { db with rows := db.rows ++
        [entryRow db.headers (assocSet info.params fnameLowerLit (.vstr (normpath d)))] }
        (assocSet info.params fnameLowerLit (.vstr (normpath d))) =
        ({ db with rows := db.rows ++
          [entryRow db.headers (assocSet info.params fnameLowerLit (.vstr (normpath d)))] },
         .ok false) := by
      unfold addOp
      rw [h2]
      rfl
    unfold add_dirOp
    rw [if_neg (by simp [hp]), if_neg (by simp [hd]), if_neg (by simp [hm]),
      if_pos hparams, haddF]

/-- C4 witness: directory `exp1` with marker `{"label": "run1"}` on
the label/filename schema. -/
theorem C4_witness :
    add_dirOp infoLabel ⟨hsLF, []⟩ ("exp1".data) =
      ({ headers := hsLF, rows := [entryRow hsLF (assocSet infoLabel.params fnameLowerLit
          (.vstr (normpath ("exp1".data))))] }, .ok (true, true)) ∧
    add_dirOp infoLabel { headers := hsLF, rows := [entryRow hsLF (assocSet infoLabel.params
          fnameLowerLit (.vstr (normpath ("exp1".data))))] } ("exp1".data) =
      ({ headers := hsLF, rows := [entryRow hsLF (assocSet infoLabel.params fnameLowerLit
          (.vstr (normpath ("exp1".data))))] }, .ok (true, false)) := by
  have HE : ValidEntry hsLF (assocSet infoLabel.params fnameLowerLit
      (.vstr (normpath ("exp1".data)))) := by
    have hent : assocSet infoLabel.params fnameLowerLit (.vstr (normpath ("exp1".data))) =
        [(("label".data), Value.vstr ("run1".data)),
         (("filename".data), Value.vstr ("exp1".data))] := by decide
    rw [hent]
    refine ⟨by decide, by decide, by decide, ?_⟩
    intro p hp s hs
    simp only [List.mem_cons, List.not_mem_nil, or_false] at hp
    rcases hp with rfl | rfl
    · injection hs with h
      subst h
      decide
    · injection hs with h
      subst h
      decide
  obtain ⟨h1, h2⟩ := C4_add_dir_idempotent infoLabel ⟨hsLF, []⟩ ("exp1".data) rfl rfl rfl
    (by decide) ⟨by decide, by decide⟩ HE (by decide)
  exact ⟨h1, h2⟩

/-- C5: counterexample. A stored filename in non-normalized form
(`a/./x`): `search` normalizes it to `a/x`, which does not exist, and
the emitted DELETE compares the column against the normalized text —
matching nothing. `prune` removes no row yet returns true. -/
theorem C5_counterexample :
    (pruneOp [] ⟨[("filename".data)], [[some (Value.vstr ("a/./x".data))]]⟩).1.rows =
      [[some (Value.vstr ("a/./x".data))]] ∧
    (pruneOp [] ⟨[("filename".data)], [[some (Value.vstr ("a/./x".data))]]⟩).2 =
      .ok true := by decide

/-- C5 (amended): when every stored filename is a normalized,
quote-free string that spells no column name, `prune` removes exactly
the rows whose filename is not on the filesystem, keeps the others
unchanged, and returns true exactly when some row's filename does not
exist. -/
theorem C5_prune_exact (fs : List Str) (db : DB) (i : Nat)
    (hfn : colIdx? db.headers fnameUpperLit = some i)
    (hrows : db.rows.all (rowFilenameOk db.headers i) = true) :
    pruneOp fs db =
      ({ db with rows := db.rows.filter (fun r =>
          match rowGet r i with
          | some (.vstr s) => fs.contains s
          | _ => false) },
        .ok (db.rows.any (fun r =>
          match rowGet r i with
          | some (.vstr s) => !(fs.contains s)
          | _ => false))) := by
  apply pruneOp_spec fs db i hfn
  intro r hr
  have h := List.all_eq_true.mp hrows r hr
  unfold rowFilenameOk at h
  cases hg : rowGet r i with
  | none =>
    rw [hg] at h
    simp at h
  | some v =>
    cases v with
    | vstr s =>
      rw [hg] at h
      simp only [Bool.and_eq_true, beq_iff_eq] at h
      obtain ⟨⟨h1, h2⟩, h3⟩ := h
      refine ⟨s, rfl, h1, ?_, ?_⟩
      · intro c hc
        have := List.all_eq_true.mp h2 c hc
        simpa using this
      · exact Option.isNone_iff_eq_none.mp h3
    | vint n =>
      rw [hg] at h
      simp at h
    | vnull =>
      rw [hg] at h
      simp at h

/-- C5 witness: stored filenames `a` and `b`, of which only `a`
exists: the `b` row goes, the `a` row stays, and the call reports
true. -/
theorem C5_witness :
    (([[some (Value.vstr ['a'])], [some (Value.vstr ['b'])]] : List Row)).all
      (rowFilenameOk [("filename".data)] 0) = true ∧
    pruneOp [['a']] ⟨[("filename".data)],
        [[some (Value.vstr ['a'])], [some (Value.vstr ['b'])]]⟩ =
      (⟨[("filename".data)], [[some (Value.vstr ['a'])]]⟩, .ok true) := by
  refine ⟨by decide, ?_⟩
  exact C5_prune_exact [['a']] ⟨[("filename".data)],
    [[some (Value.vstr ['a'])], [some (Value.vstr ['b'])]]⟩ 0 (by decide) (by decide)

/-- C8: confirmed. Construction fails exactly when the store path
exists and is not a regular file (ValueError), or the store already
holds a LIBRARY table whose last column is not `filename` up to case
(RuntimeError) — given that a stored table has at least one column. -/
theorem C8_init_errors (pp isf : Bool) (th : Option (List Str)) (hth : th ≠ some []) :
    (∃ e, dexInit pp isf th = .error e) ↔
    ((pp = true ∧ isf = false) ∨
     ∃ hs, th = some hs ∧ asciiLower (hs.getLastD []) ≠ fnameLowerLit) := by
  by_cases hc : (pp && !isf) = true
  · have hd : dexInit pp isf th = .error .valueErr := by
      unfold dexInit
      rw [if_pos hc]
    have hpf : pp = true ∧ isf = false := by
      cases pp <;> cases isf <;> simp_all
    exact ⟨fun _ => Or.inl hpf, fun _ => ⟨.valueErr, hd⟩⟩
  · have hnpf : ¬ (pp = true ∧ isf = false) := by
      cases pp <;> cases isf <;> simp_all
    cases th with
    | none =>
      have hd : dexInit pp isf none = .ok () := by
        unfold dexInit
        rw [if_neg hc]
      constructor
      · rintro ⟨e, he⟩
        rw [hd] at he
        exact Except.noConfusion he
      · rintro (hpf | ⟨hs, heq, _⟩)
        · exact absurd hpf hnpf
        · exact Option.noConfusion heq
    | some hs =>
      cases hs with
      | nil => exact absurd rfl hth
      | cons h t =>
        have hd : dexInit pp isf (some (h :: t)) =
            if asciiLower ((h :: t).getLastD []) = fnameLowerLit then .ok ()
            else .error .runtimeErr := by
          unfold dexInit
          rw [if_neg hc]
        by_cases hl : asciiLower ((h :: t).getLastD []) = fnameLowerLit
        · rw [if_pos hl] at hd
          constructor
          · rintro ⟨e, he⟩
            rw [hd] at he
            exact Except.noConfusion he
          · rintro (hpf | ⟨hs2, heq, hl2⟩)
            · exact absurd hpf hnpf
            · injection heq with heq2
              subst heq2
              exact absurd hl hl2
        · rw [if_neg hl] at hd
          exact ⟨fun _ => Or.inr ⟨h :: t, rfl, hl⟩, fun _ => ⟨.runtimeErr, hd⟩⟩

/-- C8 witness: a store whose table's single column is `a`. -/
theorem C8_witness :
    (some [['a']] ≠ some ([] : List Str)) ∧
    ((∃ e, dexInit false false (some [['a']]) = .error e) ↔
     ((false = true ∧ false = false) ∨
      ∃ hs, (some [['a']] : Option (List Str)) = some hs ∧
        asciiLower (hs.getLastD []) ≠ fnameLowerLit)) :=
  ⟨by decide, C8_init_errors false false (some [['a']]) (by decide)⟩

/-- C9: counterexample. Two trees with identical sets of relative file
paths and bytes — the same two files enumerated in opposite orders —
feed the hasher different streams, so the digests differ: the digest
depends on sibling enumeration order, not on content alone. -/
theorem C9_counterexample :
    (∀ q ∈ fileList [] tFiles1, q ∈ fileList [] tFiles2) ∧
    (∀ q ∈ fileList [] tFiles2, q ∈ fileList [] tFiles1) ∧
    (hash_directory_run ("cwd".data) ['.'] tFiles1).2 ≠
      (hash_directory_run ("cwd".data) ['.'] tFiles2).2 := by decide

/-- C9 (amended): the digest is a function of the ordered visit
sequence, not of the content set: two trees whose ordered (path,
bytes) visit sequences coincide feed the hasher identical streams and
so hash equally; equal content in a different sibling order does not
(see the counterexample). -/
theorem C9_digest_of_visit_order (cwd root : Str) (t1 t2 : FTree)
    (h : visitSeq [] t1 = visitSeq [] t2) :
    (hash_directory_run cwd root t1).2 = (hash_directory_run cwd root t2).2 := by
  show (wrk (chdir root cwd) [] t1).2 = (wrk (chdir root cwd) [] t2).2
  rw [wrk_snd, wrk_snd, hdStream_eq_flat, hdStream_eq_flat, h]

/-- C9 witness: adding an empty subdirectory leaves the visit sequence
— and hence the digest stream — unchanged. -/
theorem C9_witness :
    visitSeq [] tSolo = visitSeq [] tSoloD ∧
    (hash_directory_run ("cwd".data) ['.'] tSolo).2 =
      (hash_directory_run ("cwd".data) ['.'] tSoloD).2 :=
  ⟨by decide, C9_digest_of_visit_order ("cwd".data) ['.'] tSolo tSoloD (by decide)⟩

end Datadex
